import Mathlib

/-!
# lichen: `internal/module/fetch.go`

A shallow embedding of `Fetch` and `verifyFetched` and the properties of the
fetch-and-verify step.

Conventions of the embedding
* A Go `string` and a Go `[]byte` are both sequences of bytes; a byte is a `Nat`.
* A Go `error` is a value of `GoError`; a nil error is `none`.
* The package `internal/model` (the types `ModuleReference` and `Module`) and the
  decoder of `encoding/json` are not part of this file of the repository; what
  `Fetch` uses of them is collected in the structure `Model`.
* The operating system (`exec.LookPath`, `ioutil.TempDir`, `cmd.CombinedOutput`,
  `os.Remove`) is the structure `World`: every outcome of these calls is a field.
-/

namespace Lichen

/-- A byte of a Go string or byte slice. -/
abbrev Byte := Nat

/-- A Go string: a sequence of bytes. -/
abbrev GoString := List Byte

/-- The bytes of an ASCII string literal of the source. -/
def lit (s : String) : GoString := s.data.map Char.toNat

/-- The byte of the opening brace, the separator of `bytes.Index(out, []byte("{"))`. -/
def lbrace : Byte := 123

/-- The byte of the closing brace, the separator of `bytes.LastIndex(out, []byte("}"))`. -/
def rbrace : Byte := 125

/-- Go error values, as far as `Fetch` builds or passes them on.
`text` is an error that only has a message (`fmt.Errorf` without `%w`, and the
errors of the operating system and of the decoder); `wrap pre inner post` is
`fmt.Errorf` with one `%w`, whose message is `pre`, the message of `inner`, `post`;
`multi` is a `*multierror.Error` with its list of errors. -/
inductive GoError where
  | text (s : GoString)
  | wrap (pre : GoString) (inner : GoError) (post : GoString)
  | multi (errs : List GoError)

/-- Modelled from the spec: `model.Module` is declared in `internal/model`, outside
this file of the repository. A module is a `ModuleReference` (embedded field, kept
under its Go name) plus the resolved metadata; `Ref` is `model.ModuleReference`, a
comparable type (it is a map key in `verifyFetched`), and `Meta` stands for the
remaining fields. -/
structure Module (Ref Meta : Type) where
  ModuleReference : Ref
  metadata : Meta

/-- One call of `dec.Decode(&m)` on the bytes that are left of the stream: a decoded
module and the bytes left after it, `io.EOF`, or another error. -/
inductive DecodeResult (Ref Meta : Type) where
  | value (m : Module Ref Meta) (rest : List Byte)
  | eof
  | error (err : GoError)

/-- The decoder `json.NewDecoder(bytes.NewReader(out))` decoding into `model.Module`
(library code and a type outside this file): `Decode` as a function of the bytes left,
which consumes at least one byte whenever it returns a value. -/
structure Decoder (Ref Meta : Type) where
  Decode : List Byte → DecodeResult Ref Meta
  progress : ∀ inp m rest, Decode inp = DecodeResult.value m rest → rest.length < inp.length

/-- What `Fetch` uses of the package `internal/model` and of `encoding/json`:
the methods `IsLocal` and `String` of `ModuleReference`, the zero value of the
metadata fields of `Module`, and the JSON decoder into `Module`. -/
structure Model (Ref Meta : Type) where
  IsLocal : Ref → Bool
  String : Ref → GoString
  zero : Meta
  dec : Decoder Ref Meta

/-- The outcomes of the calls `Fetch` makes to the operating system:
`exec.LookPath("go")`, `ioutil.TempDir("", "lichen")`, `cmd.CombinedOutput()` for the
binary, the arguments and the working directory (the context decides with them what
the subprocess does), and `os.Remove`. -/
structure World where
  lookPath : Except GoError GoString
  tempDir : Except GoError GoString
  combinedOutput : GoString → List GoString → GoString → List Byte × Option GoError
  remove : GoString → Option GoError

/-- The calls to the operating system, in the order `Fetch` makes them. -/
inductive Effect where
  | lookPath
  | tempDir
  | run (goBin : GoString) (args : List GoString) (dir : GoString)
  | remove (dir : GoString) (result : Option GoError)

/-- How a call of `Fetch` ends: it returns its two results (a nil slice and a nil
error are `none`), or a slice expression is out of range and the call panics. -/
inductive Return (Ref Meta : Type) where
  | ret (modules : Option (List (Module Ref Meta))) (err : Option GoError)
  | panic

/-- A call of `Fetch`: how it ends and the calls to the operating system it made. -/
structure Run (Ref Meta : Type) where
  result : Return Ref Meta
  trace : List Effect

/-- `bytes.Index(s, []byte{c})`: the index of the first `c` in `s`, or -1. -/
def Index (s : List Byte) (c : Byte) : Int :=
  if c ∈ s then (s.indexOf c : Int) else -1

/-- `bytes.LastIndex(s, []byte{c})`: the index of the last `c` in `s`, or -1. -/
def LastIndex (s : List Byte) (c : Byte) : Int :=
  if c ∈ s then (s.length : Int) - 1 - (s.reverse.indexOf c : Int) else -1

/-- The slice expression `s[i:]`: in range when `0 ≤ i ≤ len(s)`. -/
def sliceFrom (s : List Byte) (i : Int) : Option (List Byte) :=
  if 0 ≤ i ∧ i ≤ (s.length : Int) then some (s.drop i.toNat) else none

/-- The slice expression `s[:j]`, taken in range when `0 ≤ j ≤ len(s)` (Go allows `j` up
to the capacity, which is at least the length). -/
def sliceTo (s : List Byte) (j : Int) : Option (List Byte) :=
  if 0 ≤ j ∧ j ≤ (s.length : Int) then some (s.take j.toNat) else none

/-- Lines 48-51: trim any leading content until the first JSON object. -/
def trimLeading (out : List Byte) : Option (List Byte) :=
  let i := Index out lbrace
  if i > 0 then sliceFrom out i else some out

/-- Lines 53-56: trim any trailing content after the last JSON object. -/
def trimTrailing (out : List Byte) : Option (List Byte) :=
  let i := LastIndex out rbrace
  if i < (out.length : Int) - 1 then sliceTo out (i + 1) else some out

/-- Lines 48-56: the two trims, one after the other; `none` is a slice out of range. -/
def sanitize (out : List Byte) : Option (List Byte) :=
  (trimLeading out).bind trimTrailing

variable {Ref Meta : Type}

/-- Lines 34-39: the argument list of the subprocess. -/
def buildArgs (M : Model Ref Meta) (refs : List Ref) : List GoString :=
  refs.foldl (fun args ref => if !M.IsLocal ref then args ++ [M.String ref] else args)
    [lit "mod", lit "download", lit "-json"]

/-- Lines 61-70: the decode loop, started with the modules decoded so far; it ends
with the decoded modules at `io.EOF` and with the error at any other error. -/
def decodeLoop (dec : Decoder Ref Meta) (inp : List Byte) (modules : List (Module Ref Meta)) :
    Except GoError (List (Module Ref Meta)) :=
  match h : dec.Decode inp with
  | DecodeResult.eof => Except.ok modules
  | DecodeResult.error err => Except.error err
  | DecodeResult.value m rest =>
    have : rest.length < inp.length := dec.progress inp m rest h
    decodeLoop dec rest (modules ++ [m])
termination_by inp.length

/-- Lines 72-79: add local modules, one per local reference of the request. -/
def addLocal (M : Model Ref Meta) (refs : List Ref) (modules : List (Module Ref Meta)) :
    List (Module Ref Meta) :=
  refs.foldl (fun modules ref =>
    if M.IsLocal ref then modules ++ [{ ModuleReference := ref, metadata := M.zero }]
    else modules) modules

/-- `multierror.Append(err, e)`: a multi-error gets the new error (or the errors of a
new multi-error) appended, nil starts a new multi-error, and any other error becomes
the first entry of a new one. -/
def multierrorAppend (err : Option GoError) (e : GoError) : GoError :=
  let added := match e with
    | GoError.multi es => es
    | other => [other]
  match err with
  | none => GoError.multi added
  | some (GoError.multi es) => GoError.multi (es ++ added)
  | some other => GoError.multi (other :: added)

/-- The error `fmt.Errorf("module %s could not be resolved", ref)`. -/
def unresolved (M : Model Ref Meta) (ref : Ref) : GoError :=
  GoError.text (lit "module " ++ M.String ref ++ lit " could not be resolved")

/-- Lines 89-100: `verifyFetched`. The set `fetchedRefs` is the list of the references
of the fetched modules. -/
def verifyFetched [DecidableEq Ref] (M : Model Ref Meta) (fetched : List (Module Ref Meta))
    (requested : List Ref) : Option GoError :=
  let fetchedRefs := fetched.map (fun module => module.ModuleReference)
  requested.foldl (fun err ref =>
    if ref ∈ fetchedRefs then err else some (multierrorAppend err (unresolved M ref))) none

/-- Lines 44-86: `Fetch` from the result of `cmd.CombinedOutput()` on. -/
def fetchOutput [DecidableEq Ref] (M : Model Ref Meta) (refs : List Ref) (out : List Byte)
    (err : Option GoError) : Return Ref Meta :=
  match err with
  | some err =>
    Return.ret none (some (GoError.wrap (lit "failed to fetch: ") err
      (lit " (output: " ++ out ++ lit ")")))
  | none =>
    match sanitize out with
    | none => Return.panic
    | some out =>
      match decodeLoop M.dec out [] with
      | Except.error err =>
        Return.ret none (some (GoError.wrap (lit "failed to decode JSON: ") err
          (lit ". Input: " ++ out)))
      | Except.ok modules =>
        let modules := addLocal M refs modules
        match verifyFetched M modules refs with
        | some err =>
          Return.ret none (some (GoError.wrap (lit "failed to fetch all modules: ") err []))
        | none => Return.ret (some modules) none

/-- Lines 18-87: `Fetch`. The deferred `os.Remove(tempDir)` runs on every way out after
the directory was made, and its result is dropped. -/
def Fetch [DecidableEq Ref] (M : Model Ref Meta) (w : World) (refs : List Ref) : Run Ref Meta :=
  if refs.length = 0 then
    { result := Return.ret (some []) none, trace := [] }
  else
    match w.lookPath with
    | Except.error err =>
      { result := Return.ret none (some err), trace := [Effect.lookPath] }
    | Except.ok goBin =>
      match w.tempDir with
      | Except.error err =>
        { result := Return.ret none
            (some (GoError.wrap (lit "failed to create temp directory: ") err [])),
          trace := [Effect.lookPath, Effect.tempDir] }
      | Except.ok tempDir =>
        let args := buildArgs M refs
        let res := w.combinedOutput goBin args tempDir
        { result := fetchOutput M refs res.1 res.2,
          trace := [Effect.lookPath, Effect.tempDir, Effect.run goBin args tempDir,
            Effect.remove tempDir (w.remove tempDir)] }

/-- The multi-error that `multierror.Append` has built from a list of errors, nil for
none. -/
def multiOf : List GoError → Option GoError
  | [] => none
  | e :: es => some (GoError.multi (e :: es))

/-- The requested references that are not the reference of a fetched module, in
request order. -/
def missing [DecidableEq Ref] (fetched : List (Module Ref Meta)) (requested : List Ref) :
    List Ref :=
  requested.filter (fun ref => decide (ref ∉ fetched.map (fun module => module.ModuleReference)))

/-- A small decoder for the examples: the stream is a sequence of objects, each an
opening brace, bytes without a closing brace, and a closing brace; the bytes between
the braces are the reference of the module, and its metadata is 1. -/
def toyDecode : List Byte → DecodeResult GoString Nat
  | [] => DecodeResult.eof
  | b :: bs =>
    if b = lbrace ∧ rbrace ∈ bs then
      DecodeResult.value
        { ModuleReference := bs.takeWhile (fun c => c != rbrace), metadata := 1 }
        (bs.dropWhile (fun c => c != rbrace)).tail
    else DecodeResult.error (GoError.text (lit "invalid character"))

/-- The decoder of the examples. -/
def toyDecoder : Decoder GoString Nat :=
  { Decode := toyDecode
    progress := by
      intro inp m rest h
      cases inp with
      | nil => simp [toyDecode] at h
      | cons b bs =>
        simp only [toyDecode] at h
        split at h
        · injection h with _ hrest
          subst hrest
          have h1 : (bs.dropWhile (fun c => c != rbrace)).length ≤ bs.length :=
            (List.dropWhile_suffix _).length_le
          simp only [List.length_tail, List.length_cons]
          omega
        · cases h }

/-- The model of the examples: a reference is its own string, it is local when it
starts with a dot, and the zero metadata is 0. -/
def toyModel : Model GoString Nat :=
  { IsLocal := fun ref => ref.head? == some 46
    String := fun ref => ref
    zero := 0
    dec := toyDecoder }

/-- A world of the examples: the tool is found, the directory is made, and the
subprocess ends with the given output and error. -/
def toyWorld (out : List Byte) (err : Option GoError) : World :=
  { lookPath := Except.ok (lit "/usr/bin/go")
    tempDir := Except.ok (lit "/tmp/lichen1")
    combinedOutput := fun _ _ _ => (out, err)
    remove := fun _ => none }

/-- The decoder reads the bytes `o` as one object with value `m`: `o` starts with an
opening brace and ends with a closing brace, and whatever follows `o` in the stream,
`Decode` returns `m` and leaves what follows. -/
def IsObject (dec : Decoder Ref Meta) (o : List Byte) (m : Module Ref Meta) : Prop :=
  o.head? = some lbrace ∧ o.getLast? = some rbrace ∧
    ∀ rest, dec.Decode (o ++ rest) = DecodeResult.value m rest

mutual
/-- The message `err.Error()` of an error. The message of `fmt.Errorf` with `%w` has the
message of the wrapped error in the place of the verb; the message of a multi-error is
made from the messages of its errors by the format function of `multierror`, library
code that is the parameter `format`. -/
def GoError.Error (format : List GoString → GoString) : GoError → GoString
  | GoError.text s => s
  | GoError.wrap pre inner post => pre ++ GoError.Error format inner ++ post
  | GoError.multi errs => format (GoError.ErrorList format errs)
/-- The messages of the errors of a list. -/
def GoError.ErrorList (format : List GoString → GoString) : List GoError → List GoString
  | [] => []
  | e :: es => GoError.Error format e :: GoError.ErrorList format es
end

/-- The temporary directories that exist when the calls of a trace are over:
`ioutil.TempDir` makes the directory it returns, and `os.Remove` takes a directory away
when it returns a nil error and leaves it when it fails. -/
def dirsLeft (w : World) (trace : List Effect) : List GoString :=
  trace.foldl (fun dirs e =>
    match e with
    | Effect.tempDir =>
      match w.tempDir with
      | Except.ok dir => dirs ++ [dir]
      | Except.error _ => dirs
    | Effect.remove dir none => dirs.erase dir
    | _ => dirs) []

/-- A format function for the examples: the messages, each on a line of its own. -/
def toyFormat (msgs : List GoString) : GoString :=
  (msgs.map (fun msg => msg ++ [10])).flatten

/-! ## Index and slice lemmas -/

theorem Index_of_not_mem {s : List Byte} {c : Byte} (h : c ∉ s) : Index s c = -1 := by
  simp [Index, h]

theorem LastIndex_of_not_mem {s : List Byte} {c : Byte} (h : c ∉ s) : LastIndex s c = -1 := by
  simp [LastIndex, h]

theorem Index_append_cons {c : Byte} (pre rest : List Byte) (h : c ∉ pre) :
    Index (pre ++ c :: rest) c = (pre.length : Int) := by
  have hmem : c ∈ pre ++ c :: rest := by simp
  simp [Index, hmem, List.indexOf_append_of_not_mem h]

theorem LastIndex_append_cons {c : Byte} (body post : List Byte) (h : c ∉ post) :
    LastIndex (body ++ c :: post) c = (body.length : Int) := by
  have hmem : c ∈ body ++ c :: post := by simp
  have hrev : c ∉ post.reverse := by simpa using h
  have hidx : List.indexOf c (post.reverse ++ c :: body.reverse) = post.length := by
    rw [List.indexOf_append_of_not_mem hrev]; simp
  have hr : (body ++ c :: post).reverse = post.reverse ++ c :: body.reverse := by simp
  unfold LastIndex
  rw [if_pos hmem, hr, hidx]
  simp only [List.length_append, List.length_cons]
  push_cast
  ring

theorem trimLeading_append_cons (pre rest : List Byte) (h : lbrace ∉ pre) :
    trimLeading (pre ++ lbrace :: rest) = some (lbrace :: rest) := by
  unfold trimLeading
  simp only [Index_append_cons pre rest h]
  split
  · next hpos =>
    simp only [sliceFrom, List.length_append, List.length_cons, Int.toNat_ofNat]
    rw [if_pos (by push_cast; omega)]
    simp
  · next hpos =>
    have : pre = [] := by
      cases pre with
      | nil => rfl
      | cons a t => exfalso; apply hpos; simp only [List.length_cons]; push_cast; omega
    simp [this]

theorem trimLeading_of_not_mem (out : List Byte) (h : lbrace ∉ out) :
    trimLeading out = some out := by
  simp [trimLeading, Index_of_not_mem h]

theorem trimTrailing_append_cons (body post : List Byte) (h : rbrace ∉ post) :
    trimTrailing (body ++ rbrace :: post) = some (body ++ [rbrace]) := by
  unfold trimTrailing
  simp only [LastIndex_append_cons body post h]
  split
  · next hlt =>
    have hto : ((body.length : Int) + 1).toNat = body.length + 1 := by omega
    simp only [sliceTo, hto, List.length_append, List.length_cons]
    rw [if_pos (by push_cast; omega)]
    have : List.take (body.length + 1) (body ++ rbrace :: post) = body ++ [rbrace] := by
      have h2 : body ++ rbrace :: post = (body ++ [rbrace]) ++ post := by simp
      rw [h2, List.take_left']
      simp
    rw [this]
  · next hlt =>
    have : post = [] := by
      cases post with
      | nil => rfl
      | cons a t =>
        exfalso; apply hlt
        simp only [List.length_append, List.length_cons]; push_cast; omega
    simp [this]

theorem trimTrailing_of_not_mem (out : List Byte) (h : rbrace ∉ out) :
    trimTrailing out = some [] := by
  unfold trimTrailing
  rw [LastIndex_of_not_mem h]
  cases out with
  | nil => simp
  | cons a t =>
    rw [if_pos (by simp only [List.length_cons]; push_cast; omega)]
    simp [sliceTo]
    omega

/-- The trim of an output whose first opening brace comes before its last closing
brace is the span between the two. -/
theorem sanitize_span (pre mid post : List Byte) (hpre : lbrace ∉ pre) (hpost : rbrace ∉ post) :
    sanitize (pre ++ lbrace :: (mid ++ rbrace :: post)) = some (lbrace :: (mid ++ [rbrace])) := by
  unfold sanitize
  rw [trimLeading_append_cons pre _ hpre]
  have h := trimTrailing_append_cons (lbrace :: mid) post hpost
  simpa using h

/-! ## The loops of Fetch -/

theorem buildArgs_eq (M : Model Ref Meta) (refs : List Ref) :
    buildArgs M refs = [lit "mod", lit "download", lit "-json"] ++
      (refs.filter (fun ref => !M.IsLocal ref)).map M.String := by
  unfold buildArgs
  generalize [lit "mod", lit "download", lit "-json"] = init
  induction refs generalizing init with
  | nil => simp
  | cons r rs ih =>
    rw [List.foldl_cons, ih]
    cases hr : M.IsLocal r <;> simp [hr]

theorem addLocal_eq (M : Model Ref Meta) (refs : List Ref) (modules : List (Module Ref Meta)) :
    addLocal M refs modules = modules ++
      (refs.filter M.IsLocal).map (fun ref => { ModuleReference := ref, metadata := M.zero }) := by
  unfold addLocal
  induction refs generalizing modules with
  | nil => simp
  | cons r rs ih =>
    rw [List.foldl_cons, ih]
    cases hr : M.IsLocal r <;> simp [hr]

theorem multierrorAppend_multiOf (M : Model Ref Meta) (es : List GoError) (ref : Ref) :
    multierrorAppend (multiOf es) (unresolved M ref) = GoError.multi (es ++ [unresolved M ref]) := by
  cases es with
  | nil => simp [multiOf, multierrorAppend, unresolved]
  | cons e t => simp [multiOf, multierrorAppend, unresolved]

theorem some_multi_append (es : List GoError) (e : GoError) :
    some (GoError.multi (es ++ [e])) = multiOf (es ++ [e]) := by
  cases es <;> simp [multiOf]

theorem verifyFetched_eq [DecidableEq Ref] (M : Model Ref Meta) (fetched : List (Module Ref Meta))
    (requested : List Ref) :
    verifyFetched M fetched requested = multiOf ((missing fetched requested).map (unresolved M)) := by
  unfold verifyFetched missing
  have key : ∀ (l : List Ref) (es : List GoError),
      l.foldl (fun err ref =>
        if ref ∈ fetched.map (fun module => module.ModuleReference) then err
        else some (multierrorAppend err (unresolved M ref))) (multiOf es) =
      multiOf (es ++ (l.filter (fun ref =>
        decide (ref ∉ fetched.map (fun module => module.ModuleReference)))).map (unresolved M)) := by
    intro l
    induction l with
    | nil => intro es; simp
    | cons r rs ih =>
      intro es
      rw [List.foldl_cons]
      by_cases hr : r ∈ fetched.map (fun module => module.ModuleReference)
      · rw [if_pos hr, ih, List.filter_cons_of_neg (by simpa using hr)]
      · rw [if_neg hr, multierrorAppend_multiOf, some_multi_append, ih,
          List.filter_cons_of_pos (by simpa using hr)]
        simp
  simpa [multiOf] using key requested []

theorem multiOf_eq_none {es : List GoError} : multiOf es = none ↔ es = [] := by
  cases es <;> simp [multiOf]

theorem mem_missing [DecidableEq Ref] (fetched : List (Module Ref Meta)) (requested : List Ref)
    (ref : Ref) :
    ref ∈ missing fetched requested ↔
      ref ∈ requested ∧ ¬ ∃ m ∈ fetched, m.ModuleReference = ref := by
  simp [missing]

theorem decodeLoop_eof (dec : Decoder Ref Meta) (inp : List Byte) (modules : List (Module Ref Meta))
    (h : dec.Decode inp = DecodeResult.eof) : decodeLoop dec inp modules = Except.ok modules := by
  rw [decodeLoop]
  split <;> simp_all

theorem decodeLoop_error (dec : Decoder Ref Meta) (inp : List Byte)
    (modules : List (Module Ref Meta)) (err : GoError)
    (h : dec.Decode inp = DecodeResult.error err) :
    decodeLoop dec inp modules = Except.error err := by
  rw [decodeLoop]
  split <;> simp_all

theorem decodeLoop_value (dec : Decoder Ref Meta) (inp : List Byte)
    (modules : List (Module Ref Meta)) (m : Module Ref Meta) (rest : List Byte)
    (h : dec.Decode inp = DecodeResult.value m rest) :
    decodeLoop dec inp modules = decodeLoop dec rest (modules ++ [m]) := by
  rw [decodeLoop]
  split <;> simp_all

/-! ## Fetch, path by path -/

theorem LastIndex_bounds (s : List Byte) (c : Byte) :
    -1 ≤ LastIndex s c ∧ LastIndex s c < (s.length : Int) := by
  unfold LastIndex
  split
  · next hmem =>
    have h1 : List.indexOf c s.reverse < s.reverse.length :=
      List.indexOf_lt_length.mpr (by simpa using hmem)
    rw [List.length_reverse] at h1
    omega
  · omega

theorem Index_bounds (s : List Byte) (c : Byte) :
    -1 ≤ Index s c ∧ Index s c ≤ (s.length : Int) := by
  unfold Index
  split
  · next hmem =>
    have h1 : List.indexOf c s ≤ s.length := List.indexOf_le_length
    omega
  · omega

theorem trimLeading_total (out : List Byte) : ∃ s, trimLeading out = some s := by
  unfold trimLeading
  have hb := Index_bounds out lbrace
  simp only
  split
  · next hpos =>
    refine ⟨out.drop (Index out lbrace).toNat, ?_⟩
    unfold sliceFrom
    rw [if_pos ⟨by omega, hb.2⟩]
  · exact ⟨out, rfl⟩

theorem trimTrailing_total (out : List Byte) : ∃ s, trimTrailing out = some s := by
  unfold trimTrailing
  have hb := LastIndex_bounds out rbrace
  simp only
  split
  · next hlt =>
    refine ⟨out.take (LastIndex out rbrace + 1).toNat, ?_⟩
    unfold sliceTo
    rw [if_pos ⟨by omega, by omega⟩]
  · exact ⟨out, rfl⟩

/-- No slice expression of the trim is out of range. -/
theorem sanitize_total (out : List Byte) : ∃ s, sanitize out = some s := by
  obtain ⟨a, ha⟩ := trimLeading_total out
  obtain ⟨b, hb⟩ := trimTrailing_total a
  exact ⟨b, by simp [sanitize, ha, hb]⟩

theorem fetchOutput_decoded [DecidableEq Ref] (M : Model Ref Meta) (refs : List Ref)
    (out s : List Byte) (dm : List (Module Ref Meta))
    (hs : sanitize out = some s) (hd : decodeLoop M.dec s [] = Except.ok dm) :
    fetchOutput M refs out none =
      match verifyFetched M (addLocal M refs dm) refs with
      | some err =>
        Return.ret none (some (GoError.wrap (lit "failed to fetch all modules: ") err []))
      | none => Return.ret (some (addLocal M refs dm)) none := by
  simp only [fetchOutput, hs, hd]

theorem Fetch_nil [DecidableEq Ref] (M : Model Ref Meta) (w : World) :
    Fetch M w ([] : List Ref) = { result := Return.ret (some []) none, trace := [] } := by
  simp [Fetch]

theorem Fetch_run [DecidableEq Ref] (M : Model Ref Meta) (w : World) (refs : List Ref)
    (goBin tempDir : GoString) (hne : refs ≠ [])
    (hl : w.lookPath = Except.ok goBin) (ht : w.tempDir = Except.ok tempDir) :
    Fetch M w refs =
      { result := fetchOutput M refs (w.combinedOutput goBin (buildArgs M refs) tempDir).1
          (w.combinedOutput goBin (buildArgs M refs) tempDir).2,
        trace := [Effect.lookPath, Effect.tempDir, Effect.run goBin (buildArgs M refs) tempDir,
          Effect.remove tempDir (w.remove tempDir)] } := by
  have h0 : refs.length ≠ 0 := by simpa using hne
  simp only [Fetch, if_neg h0, hl, ht]

theorem fetchOutput_success [DecidableEq Ref] (M : Model Ref Meta) (refs : List Ref)
    (out : List Byte) (err : Option GoError) (modules : Option (List (Module Ref Meta)))
    (h : fetchOutput M refs out err = Return.ret modules none) :
    err = none ∧ ∃ s dm, sanitize out = some s ∧ decodeLoop M.dec s [] = Except.ok dm ∧
      verifyFetched M (addLocal M refs dm) refs = none ∧
      modules = some (addLocal M refs dm) := by
  unfold fetchOutput at h
  split at h
  · simp at h
  · refine ⟨rfl, ?_⟩
    split at h
    · simp at h
    · next s hs =>
      split at h
      · simp at h
      · next dm hd =>
        simp only at h
        split at h
        · simp at h
        · next hv =>
          injection h with h1 _
          exact ⟨s, dm, hs, hd, hv, h1.symm⟩

theorem Fetch_success [DecidableEq Ref] (M : Model Ref Meta) (w : World) (refs : List Ref)
    (modules : Option (List (Module Ref Meta)))
    (h : (Fetch M w refs).result = Return.ret modules none) :
    (refs = [] ∧ modules = some []) ∨
    (refs ≠ [] ∧ ∃ goBin tempDir s dm,
      w.lookPath = Except.ok goBin ∧ w.tempDir = Except.ok tempDir ∧
      (w.combinedOutput goBin (buildArgs M refs) tempDir).2 = none ∧
      sanitize (w.combinedOutput goBin (buildArgs M refs) tempDir).1 = some s ∧
      decodeLoop M.dec s [] = Except.ok dm ∧
      verifyFetched M (addLocal M refs dm) refs = none ∧
      modules = some (addLocal M refs dm)) := by
  by_cases hne : refs = []
  · subst hne
    rw [Fetch_nil] at h
    injection h with h1 _
    exact Or.inl ⟨rfl, h1.symm⟩
  · right
    refine ⟨hne, ?_⟩
    cases hl : w.lookPath with
    | error e =>
      have h0 : refs.length ≠ 0 := by simpa using hne
      simp [Fetch, h0, hl] at h
    | ok goBin =>
      cases ht : w.tempDir with
      | error e =>
        have h0 : refs.length ≠ 0 := by simpa using hne
        simp [Fetch, h0, hl, ht] at h
      | ok tempDir =>
        rw [Fetch_run M w refs goBin tempDir hne hl ht] at h
        obtain ⟨he, s, dm, hs, hd, hv, hm⟩ := fetchOutput_success M refs _ _ modules h
        exact ⟨goBin, tempDir, s, dm, rfl, rfl, he, hs, hd, hv, hm⟩

theorem verifyFetched_none_iff [DecidableEq Ref] (M : Model Ref Meta)
    (fetched : List (Module Ref Meta)) (requested : List Ref) :
    verifyFetched M fetched requested = none ↔
      ∀ ref ∈ requested, ∃ m ∈ fetched, m.ModuleReference = ref := by
  rw [verifyFetched_eq, multiOf_eq_none, List.map_eq_nil_iff, List.eq_nil_iff_forall_not_mem]
  constructor
  · intro h ref href
    by_contra hno
    exact h ref ((mem_missing fetched requested ref).mpr ⟨href, hno⟩)
  · intro h ref hmem
    obtain ⟨href, hno⟩ := (mem_missing fetched requested ref).mp hmem
    exact hno (h ref href)

theorem fetchOutput_all_or_nothing [DecidableEq Ref] (M : Model Ref Meta) (refs : List Ref)
    (out : List Byte) (err : Option GoError) :
    (∃ ms, fetchOutput M refs out err = Return.ret (some ms) none) ∨
    (∃ e, fetchOutput M refs out err = Return.ret none (some e)) := by
  cases err with
  | some e => exact Or.inr ⟨_, rfl⟩
  | none =>
    obtain ⟨s, hs⟩ := sanitize_total out
    cases hd : decodeLoop M.dec s [] with
    | error e =>
      right
      exact ⟨GoError.wrap (lit "failed to decode JSON: ") e (lit ". Input: " ++ s),
        by simp only [fetchOutput, hs, hd]⟩
    | ok dm =>
      rw [fetchOutput_decoded M refs out s dm hs hd]
      cases verifyFetched M (addLocal M refs dm) refs with
      | none => exact Or.inl ⟨_, rfl⟩
      | some e => exact Or.inr ⟨_, rfl⟩

theorem Fetch_all_or_nothing [DecidableEq Ref] (M : Model Ref Meta) (w : World) (refs : List Ref) :
    (∃ ms, (Fetch M w refs).result = Return.ret (some ms) none) ∨
    (∃ e, (Fetch M w refs).result = Return.ret none (some e)) := by
  by_cases hne : refs = []
  · subst hne
    exact Or.inl ⟨[], by rw [Fetch_nil]⟩
  · have h0 : refs.length ≠ 0 := by simpa using hne
    cases hl : w.lookPath with
    | error e => exact Or.inr ⟨e, by simp [Fetch, h0, hl]⟩
    | ok goBin =>
      cases ht : w.tempDir with
      | error e =>
        exact Or.inr ⟨GoError.wrap (lit "failed to create temp directory: ") e [],
          by simp only [Fetch, if_neg h0, hl, ht]⟩
      | ok tempDir =>
        rw [Fetch_run M w refs goBin tempDir hne hl ht]
        exact fetchOutput_all_or_nothing M refs _ _

theorem split_at_index (l : List Byte) (n : Nat) (c : Byte) (h : l[n]? = some c) :
    l = l.take n ++ c :: l.drop (n + 1) := by
  obtain ⟨hn, hc⟩ := List.getElem?_eq_some.mp h
  have h1 := List.drop_eq_getElem_cons hn
  rw [hc] at h1
  rw [← h1, List.take_append_drop]

theorem not_mem_take_of_first (l : List Byte) (i : Nat) (c : Byte)
    (hfirst : ∀ k, k < i → l[k]? ≠ some c) : c ∉ l.take i := by
  intro hmem
  obtain ⟨n, hn⟩ := List.mem_iff_getElem?.mp hmem
  rw [List.getElem?_take] at hn
  split at hn
  · next hlt => exact hfirst n hlt hn
  · cases hn

theorem not_mem_drop_of_last (l : List Byte) (j : Nat) (c : Byte)
    (hlast : ∀ k, j < k → l[k]? ≠ some c) : c ∉ l.drop (j + 1) := by
  intro hmem
  obtain ⟨n, hn⟩ := List.mem_iff_getElem?.mp hmem
  rw [List.getElem?_drop] at hn
  exact hlast (j + 1 + n) (by omega) hn

theorem decodeLoop_objects (dec : Decoder Ref Meta) (objs : List (List Byte × Module Ref Meta))
    (hobj : ∀ p ∈ objs, IsObject dec p.1 p.2) (rest : List Byte)
    (acc : List (Module Ref Meta)) :
    decodeLoop dec ((objs.map Prod.fst).flatten ++ rest) acc =
      decodeLoop dec rest (acc ++ objs.map Prod.snd) := by
  induction objs generalizing acc with
  | nil => simp
  | cons p ps ih =>
    have hp := hobj p (List.mem_cons_self p ps)
    have hps : ∀ q ∈ ps, IsObject dec q.1 q.2 := fun q hq => hobj q (List.mem_cons_of_mem p hq)
    simp only [List.map_cons, List.flatten_cons, List.append_assoc]
    rw [decodeLoop_value dec _ acc p.2 _ (hp.2.2 _), ih hps]
    simp

theorem flatten_getLast (objs : List (List Byte × Module Ref Meta)) (hne : objs ≠ [])
    (hlast : ∀ p ∈ objs, p.1.getLast? = some rbrace) :
    ((objs.map Prod.fst).flatten).getLast? = some rbrace := by
  induction objs with
  | nil => exact absurd rfl hne
  | cons p ps ih =>
    have hp := hlast p (List.mem_cons_self p ps)
    cases ps with
    | nil => simpa using hp
    | cons q t =>
      have hq := ih (by simp) (fun r hr => hlast r (List.mem_cons_of_mem p hr))
      simp only [List.map_cons, List.flatten_cons] at hq ⊢
      rw [List.getLast?_append, hq]
      rfl

theorem sanitize_noise (pre body suf : List Byte) (hpre : lbrace ∉ pre) (hsuf : rbrace ∉ suf)
    (hhead : body.head? = some lbrace) (hlast : body.getLast? = some rbrace) :
    sanitize (pre ++ body ++ suf) = some body := by
  obtain ⟨t, ht⟩ := List.head?_eq_some_iff.mp hhead
  obtain ⟨b, hb⟩ := List.getLast?_eq_some_iff.mp hlast
  have h1 : pre ++ body ++ suf = pre ++ lbrace :: (t ++ suf) := by simp [ht]
  have h2 : lbrace :: (t ++ suf) = b ++ rbrace :: suf := by
    rw [← List.cons_append, ← ht, hb]; simp
  unfold sanitize
  rw [h1, trimLeading_append_cons pre _ hpre, h2]
  simp only [Option.some_bind]
  rw [trimTrailing_append_cons b suf hsuf, hb]

theorem sanitize_no_braces (out : List Byte) (hl : lbrace ∉ out) (hr : rbrace ∉ out) :
    sanitize out = some [] := by
  simp [sanitize, trimLeading_of_not_mem out hl, trimTrailing_of_not_mem out hr]

/-! ## Evaluation of the examples -/

theorem takeWhile_ne_append (x rest : List Byte) (hx : rbrace ∉ x) :
    List.takeWhile (fun c => c != rbrace) (x ++ rbrace :: rest) = x := by
  induction x with
  | nil => simp
  | cons a t ih =>
    have ha : a ≠ rbrace := fun h => hx (by simp [h])
    have ht : rbrace ∉ t := fun h => hx (by simp [h])
    simp [List.takeWhile_cons, ha, ih ht]

theorem dropWhile_ne_append (x rest : List Byte) (hx : rbrace ∉ x) :
    List.dropWhile (fun c => c != rbrace) (x ++ rbrace :: rest) = rbrace :: rest := by
  induction x with
  | nil => simp
  | cons a t ih =>
    have ha : a ≠ rbrace := fun h => hx (by simp [h])
    have ht : rbrace ∉ t := fun h => hx (by simp [h])
    simp [List.dropWhile_cons, ha, ih ht]

theorem toy_decode_one (x : List Byte) (hx : rbrace ∉ x) (rest : List Byte) :
    toyDecode (lbrace :: (x ++ rbrace :: rest)) =
      DecodeResult.value { ModuleReference := x, metadata := 1 } rest := by
  simp [toyDecode, takeWhile_ne_append x rest hx, dropWhile_ne_append x rest hx]

theorem toy_decode_a :
    decodeLoop toyDecoder (lit "{a}") [] =
      Except.ok [{ ModuleReference := lit "a", metadata := 1 }] := by
  rw [decodeLoop_value _ _ _ { ModuleReference := lit "a", metadata := 1 } [] (by rfl),
    decodeLoop_eof _ _ _ (by rfl)]
  rfl

theorem toy_decode_ab :
    decodeLoop toyDecoder (lit "{a}{b}") [] =
      Except.ok [{ ModuleReference := lit "a", metadata := 1 },
        { ModuleReference := lit "b", metadata := 1 }] := by
  rw [decodeLoop_value _ _ _ { ModuleReference := lit "a", metadata := 1 } (lit "{b}") (by rfl),
    decodeLoop_value _ _ _ { ModuleReference := lit "b", metadata := 1 } [] (by rfl),
    decodeLoop_eof _ _ _ (by rfl)]
  rfl

theorem toy_fetch_ok :
    (Fetch toyModel (toyWorld (lit "x{a}y") none) [lit "a", lit "./b"]).result =
      Return.ret (some [{ ModuleReference := lit "a", metadata := 1 },
        { ModuleReference := lit "./b", metadata := 0 }]) none := by
  rw [Fetch_run toyModel _ _ (lit "/usr/bin/go") (lit "/tmp/lichen1") (by simp) rfl rfl]
  show fetchOutput toyModel _ (lit "x{a}y") none = _
  rw [fetchOutput_decoded toyModel _ _ (lit "{a}") _ (by decide) toy_decode_a]
  rfl

theorem toy_decode_aa :
    decodeLoop toyDecoder (lit "{a}{a}") [] =
      Except.ok [{ ModuleReference := lit "a", metadata := 1 },
        { ModuleReference := lit "a", metadata := 1 }] := by
  rw [decodeLoop_value _ _ _ { ModuleReference := lit "a", metadata := 1 } (lit "{a}") (by rfl),
    decodeLoop_value _ _ _ { ModuleReference := lit "a", metadata := 1 } [] (by rfl),
    decodeLoop_eof _ _ _ (by rfl)]
  rfl

theorem toy_fetch_local_twice :
    (Fetch toyModel (toyWorld [] none) [lit "./b", lit "./b"]).result =
      Return.ret (some [{ ModuleReference := lit "./b", metadata := 0 },
        { ModuleReference := lit "./b", metadata := 0 }]) none := by
  rw [Fetch_run toyModel _ _ (lit "/usr/bin/go") (lit "/tmp/lichen1") (by simp) rfl rfl]
  show fetchOutput toyModel _ [] none = _
  rw [fetchOutput_decoded toyModel _ _ [] [] (by decide) (decodeLoop_eof _ _ _ (by rfl))]
  rfl

theorem toy_fetch_remote_twice :
    (Fetch toyModel (toyWorld (lit "{a}{a}") none) [lit "a", lit "a"]).result =
      Return.ret (some [{ ModuleReference := lit "a", metadata := 1 },
        { ModuleReference := lit "a", metadata := 1 }]) none := by
  rw [Fetch_run toyModel _ _ (lit "/usr/bin/go") (lit "/tmp/lichen1") (by simp) rfl rfl]
  show fetchOutput toyModel _ (lit "{a}{a}") none = _
  rw [fetchOutput_decoded toyModel _ _ (lit "{a}{a}") _ (by decide) toy_decode_aa]
  rfl

theorem toy_fetch_remote_once :
    (Fetch toyModel (toyWorld (lit "{a}") none) [lit "a", lit "a"]).result =
      Return.ret (some [{ ModuleReference := lit "a", metadata := 1 }]) none := by
  rw [Fetch_run toyModel _ _ (lit "/usr/bin/go") (lit "/tmp/lichen1") (by simp) rfl rfl]
  show fetchOutput toyModel _ (lit "{a}") none = _
  rw [fetchOutput_decoded toyModel _ _ (lit "{a}") _ (by decide) toy_decode_a]
  rfl

/-! ## The claims -/

/-- C1. No omissions on success: whatever the tool lookup, the directory creation, the
subprocess and the decoder do, if `Fetch` returns a nil error then it returns a module
sequence in which every requested reference, remote or local, is the `ModuleReference`
of at least one module. -/
theorem C1_no_omissions [DecidableEq Ref] (M : Model Ref Meta) (w : World) (refs : List Ref)
    (modules : Option (List (Module Ref Meta)))
    (h : (Fetch M w refs).result = Return.ret modules none) :
    ∃ ms, modules = some ms ∧ ∀ ref ∈ refs, ∃ m ∈ ms, m.ModuleReference = ref := by
  rcases Fetch_success M w refs modules h with ⟨hnil, hm⟩ | ⟨_, _, _, _, dm, _, _, _, _, _, hv, hm⟩
  · subst hnil
    exact ⟨[], hm, by simp⟩
  · exact ⟨addLocal M refs dm, hm, (verifyFetched_none_iff M _ refs).mp hv⟩

/-- C1 at an example: the request has a remote and a local reference, the output is one
object inside noise, and both references are in the returned sequence. -/
theorem C1_no_omissions_witness :
    (Fetch toyModel (toyWorld (lit "x{a}y") none) [lit "a", lit "./b"]).result =
      Return.ret (some [{ ModuleReference := lit "a", metadata := 1 },
        { ModuleReference := lit "./b", metadata := 0 }]) none ∧
    ∃ ms, some [({ ModuleReference := lit "a", metadata := 1 } : Module GoString Nat),
        { ModuleReference := lit "./b", metadata := 0 }] = some ms ∧
      ∀ ref ∈ [lit "a", lit "./b"], ∃ m ∈ ms, m.ModuleReference = ref :=
  ⟨toy_fetch_ok, C1_no_omissions toyModel _ _ _ toy_fetch_ok⟩

/-- C2 as stated fails on a request with duplicates. The local reference `./b` requested
twice, with a zero exit and an empty output (there is no remote reference), gives two
modules with the same reference. The remote reference `a` requested twice gives two
modules with the same reference when the output has one object per request of `a`,
and one module, not two, when it has one object for `a`. -/
theorem C2_counterexample :
    ((Fetch toyModel (toyWorld [] none) [lit "./b", lit "./b"]).result =
        Return.ret (some [{ ModuleReference := lit "./b", metadata := 0 },
          { ModuleReference := lit "./b", metadata := 0 }]) none ∧
      ¬ ([({ ModuleReference := lit "./b", metadata := 0 } : Module GoString Nat),
          { ModuleReference := lit "./b", metadata := 0 }].map
            (fun m => m.ModuleReference)).Nodup) ∧
    ((Fetch toyModel (toyWorld (lit "{a}{a}") none) [lit "a", lit "a"]).result =
        Return.ret (some [{ ModuleReference := lit "a", metadata := 1 },
          { ModuleReference := lit "a", metadata := 1 }]) none ∧
      ¬ ([({ ModuleReference := lit "a", metadata := 1 } : Module GoString Nat),
          { ModuleReference := lit "a", metadata := 1 }].map
            (fun m => m.ModuleReference)).Nodup) ∧
    ((Fetch toyModel (toyWorld (lit "{a}") none) [lit "a", lit "a"]).result =
        Return.ret (some [{ ModuleReference := lit "a", metadata := 1 }]) none ∧
      [({ ModuleReference := lit "a", metadata := 1 } : Module GoString Nat)].length ≠
        [lit "a", lit "a"].length) :=
  ⟨⟨toy_fetch_local_twice, by decide⟩, ⟨toy_fetch_remote_twice, by decide⟩,
    ⟨toy_fetch_remote_once, by decide⟩⟩

/-- C2, amended. Exactly one entry per request, for a request without duplicates: for
every non-empty `refs` in which no reference occurs twice, if the tool exits zero and
its output decodes to exactly one module per remote reference of `refs` (in any
order), then `Fetch` returns exactly `len(refs)` modules, no two returned modules have
the same `ModuleReference`, and the reference of each returned module is an element of
`refs`. -/
theorem C2_one_entry_per_request [DecidableEq Ref] (M : Model Ref Meta) (w : World)
    (refs : List Ref) (goBin tempDir : GoString) (out s : List Byte)
    (dm : List (Module Ref Meta))
    (hne : refs ≠ []) (hnodup : refs.Nodup)
    (hl : w.lookPath = Except.ok goBin) (ht : w.tempDir = Except.ok tempDir)
    (hrun : w.combinedOutput goBin (buildArgs M refs) tempDir = (out, none))
    (hs : sanitize out = some s) (hd : decodeLoop M.dec s [] = Except.ok dm)
    (hobj : (dm.map (fun m => m.ModuleReference)).Perm
      (refs.filter (fun ref => !M.IsLocal ref))) :
    ∃ ms, (Fetch M w refs).result = Return.ret (some ms) none ∧
      ms.length = refs.length ∧
      (ms.map (fun m => m.ModuleReference)).Nodup ∧
      ∀ m ∈ ms, m.ModuleReference ∈ refs := by
  have hperm : ((addLocal M refs dm).map (fun m => m.ModuleReference)).Perm refs := by
    rw [addLocal_eq, List.map_append, List.map_map]
    have hid : (List.map ((fun m => m.ModuleReference) ∘
        fun ref => ({ ModuleReference := ref, metadata := M.zero } : Module Ref Meta))
        (refs.filter M.IsLocal)) = refs.filter M.IsLocal := by
      simp [Function.comp_def]
    rw [hid]
    exact ((hobj.append_right _).trans List.perm_append_comm).trans
      (List.filter_append_perm M.IsLocal refs)
  have hver : verifyFetched M (addLocal M refs dm) refs = none := by
    rw [verifyFetched_none_iff]
    intro ref href
    have := (hperm.mem_iff (a := ref)).mpr href
    simpa using this
  refine ⟨addLocal M refs dm, ?_, ?_, ?_, ?_⟩
  · rw [Fetch_run M w refs goBin tempDir hne hl ht, hrun]
    simp only
    rw [fetchOutput_decoded M refs out s dm hs hd, hver]
  · simpa using hperm.length_eq
  · exact hperm.nodup_iff.mpr hnodup
  · intro m hm
    exact hperm.mem_iff.mp (List.mem_map_of_mem _ hm)

/-- C2 amended, at an example: the request is the remote `a` and the local `./b`, the
output has the object of `a` inside noise, and two modules are returned. -/
theorem C2_one_entry_per_request_witness :
    ∃ ms, (Fetch toyModel (toyWorld (lit "x{a}y") none) [lit "a", lit "./b"]).result =
        Return.ret (some ms) none ∧
      ms.length = [lit "a", lit "./b"].length ∧
      (ms.map (fun m => m.ModuleReference)).Nodup ∧
      ∀ m ∈ ms, m.ModuleReference ∈ [lit "a", lit "./b"] :=
  C2_one_entry_per_request toyModel (toyWorld (lit "x{a}y") none) [lit "a", lit "./b"]
    (lit "/usr/bin/go") (lit "/tmp/lichen1") (lit "x{a}y") (lit "{a}")
    [{ ModuleReference := lit "a", metadata := 1 }]
    (by simp) (by decide) rfl rfl rfl (by decide) toy_decode_a (by decide)

/-- C3. `verifyFetched` returns a nil error if and only if every requested reference is
the `ModuleReference` of some fetched module; and after a run that exits zero with an
output that decodes to `dm`, `Fetch` fails with "failed to fetch all modules" exactly
when some requested reference is absent from `dm` followed by the local modules. -/
theorem C3_verify_nil_iff [DecidableEq Ref] (M : Model Ref Meta)
    (fetched : List (Module Ref Meta)) (requested : List Ref)
    (w : World) (refs : List Ref) (goBin tempDir : GoString) (out s : List Byte)
    (dm : List (Module Ref Meta))
    (hne : refs ≠ []) (hl : w.lookPath = Except.ok goBin) (ht : w.tempDir = Except.ok tempDir)
    (hrun : w.combinedOutput goBin (buildArgs M refs) tempDir = (out, none))
    (hs : sanitize out = some s) (hd : decodeLoop M.dec s [] = Except.ok dm) :
    (verifyFetched M fetched requested = none ↔
      ∀ ref ∈ requested, ∃ m ∈ fetched, m.ModuleReference = ref) ∧
    ((∃ err, (Fetch M w refs).result =
        Return.ret none (some (GoError.wrap (lit "failed to fetch all modules: ") err []))) ↔
      ∃ ref ∈ refs, ¬ ∃ m ∈ dm ++ (refs.filter M.IsLocal).map
          (fun r => ({ ModuleReference := r, metadata := M.zero } : Module Ref Meta)),
        m.ModuleReference = ref) := by
  refine ⟨verifyFetched_none_iff M fetched requested, ?_⟩
  rw [Fetch_run M w refs goBin tempDir hne hl ht, hrun]
  simp only
  rw [fetchOutput_decoded M refs out s dm hs hd, ← addLocal_eq]
  have hv := verifyFetched_none_iff M (addLocal M refs dm) refs
  cases hver : verifyFetched M (addLocal M refs dm) refs with
  | none =>
    simp only
    constructor
    · rintro ⟨err, herr⟩
      cases herr
    · rintro ⟨ref, href, hno⟩
      exact absurd (hv.mp hver ref href) hno
  | some e =>
    simp only
    constructor
    · intro _
      by_contra hall
      have hall2 : ∀ ref ∈ refs, ∃ m ∈ addLocal M refs dm, m.ModuleReference = ref := by
        intro ref href
        by_contra hno
        exact hall ⟨ref, href, hno⟩
      rw [hv.mpr hall2] at hver
      cases hver
    · intro _
      exact ⟨e, rfl⟩

/-- C3 at an example: the output resolves `a`, the request is `a` and `c`, and `Fetch`
fails with "failed to fetch all modules". -/
theorem C3_verify_nil_iff_witness :
    ∃ err, (Fetch toyModel (toyWorld (lit "{a}") none) [lit "a", lit "c"]).result =
      Return.ret none (some (GoError.wrap (lit "failed to fetch all modules: ") err [])) :=
  (C3_verify_nil_iff toyModel [{ ModuleReference := lit "a", metadata := 1 }] [lit "a"]
    (toyWorld (lit "{a}") none) [lit "a", lit "c"] (lit "/usr/bin/go") (lit "/tmp/lichen1")
    (lit "{a}") (lit "{a}") [{ ModuleReference := lit "a", metadata := 1 }]
    (by simp) rfl rfl rfl (by decide) toy_decode_a).2.mpr
    ⟨lit "c", by simp, by decide⟩

/-- C4. Aggregation of all misses: the error of `verifyFetched` is nil when no requested
reference is missing, and otherwise it is one multi-error whose entries are the errors
"module X could not be resolved", one for every element X of `requested` that is not the
reference of a fetched module, in request order, and nothing else. -/
theorem C4_all_misses_aggregated [DecidableEq Ref] (M : Model Ref Meta)
    (fetched : List (Module Ref Meta)) (requested : List Ref) :
    (requested.filter (fun X => decide (X ∉ fetched.map (fun m => m.ModuleReference))) = [] →
      verifyFetched M fetched requested = none) ∧
    (requested.filter (fun X => decide (X ∉ fetched.map (fun m => m.ModuleReference))) ≠ [] →
      verifyFetched M fetched requested = some (GoError.multi
        ((requested.filter (fun X => decide (X ∉ fetched.map (fun m => m.ModuleReference)))).map
          (fun X => GoError.text (lit "module " ++ M.String X ++ lit " could not be resolved"))))) := by
  rw [verifyFetched_eq]
  unfold missing
  constructor
  · intro h
    rw [h]
    rfl
  · intro h
    cases hf : requested.filter
        (fun X => decide (X ∉ fetched.map (fun m => m.ModuleReference))) with
    | nil => exact absurd hf h
    | cons a t => rfl

/-- C4 at an example: `a` and `b` were fetched, the request is `a`, `c`, `b`, `d`, and the
one error lists `c` and `d`, in this order. -/
theorem C4_all_misses_aggregated_witness :
    verifyFetched toyModel
        [{ ModuleReference := lit "a", metadata := 1 }, { ModuleReference := lit "b", metadata := 1 }]
        [lit "a", lit "c", lit "b", lit "d"] =
      some (GoError.multi
        [GoError.text (lit "module c could not be resolved"),
          GoError.text (lit "module d could not be resolved")]) :=
  (C4_all_misses_aggregated toyModel
    [{ ModuleReference := lit "a", metadata := 1 }, { ModuleReference := lit "b", metadata := 1 }]
    [lit "a", lit "c", lit "b", lit "d"]).2 (by decide)

/-- C5. All-or-nothing: whatever the tool lookup, the directory creation, the subprocess
and the decoder do, `Fetch` returns either a module sequence with a nil error or nil
modules with a non-nil error (and never panics); in particular, when the output decoded
to modules `dm` and a remote reference `C` of the request is not among them, the modules
of `dm` are not returned. -/
theorem C5_all_or_nothing [DecidableEq Ref] (M : Model Ref Meta) (w : World) (refs : List Ref) :
    ((∃ ms, (Fetch M w refs).result = Return.ret (some ms) none) ∨
      (∃ err, (Fetch M w refs).result = Return.ret none (some err))) ∧
    (∀ (goBin tempDir : GoString) (out s : List Byte) (dm : List (Module Ref Meta)) (C : Ref),
      w.lookPath = Except.ok goBin → w.tempDir = Except.ok tempDir →
      w.combinedOutput goBin (buildArgs M refs) tempDir = (out, none) →
      sanitize out = some s → decodeLoop M.dec s [] = Except.ok dm →
      C ∈ refs → M.IsLocal C = false → (∀ m ∈ dm, m.ModuleReference ≠ C) →
      ∃ err, (Fetch M w refs).result = Return.ret none (some err)) := by
  refine ⟨Fetch_all_or_nothing M w refs, ?_⟩
  intro goBin tempDir out s dm C hl ht hrun hs hd hC hloc hmiss
  have hne : refs ≠ [] := List.ne_nil_of_mem hC
  rw [Fetch_run M w refs goBin tempDir hne hl ht, hrun]
  simp only
  rw [fetchOutput_decoded M refs out s dm hs hd]
  cases hver : verifyFetched M (addLocal M refs dm) refs with
  | some e => exact ⟨_, rfl⟩
  | none =>
    exfalso
    obtain ⟨m, hm, hmC⟩ := (verifyFetched_none_iff M _ refs).mp hver C hC
    rw [addLocal_eq, List.mem_append] at hm
    rcases hm with hm | hm
    · exact hmiss m hm hmC
    · rw [List.mem_map] at hm
      obtain ⟨r, hr, hrm⟩ := hm
      rw [List.mem_filter] at hr
      subst hrm
      simp only at hmC
      subst hmC
      rw [hloc] at hr
      exact Bool.false_ne_true hr.2

/-- C5 at an example: the output resolves `a` and `b`, the request is `a`, `b` and the
remote `c`, and `Fetch` returns nil modules with an error. -/
theorem C5_all_or_nothing_witness :
    ∃ err, (Fetch toyModel (toyWorld (lit "{a}{b}") none) [lit "a", lit "b", lit "c"]).result =
      Return.ret none (some err) :=
  (C5_all_or_nothing toyModel (toyWorld (lit "{a}{b}") none) [lit "a", lit "b", lit "c"]).2
    (lit "/usr/bin/go") (lit "/tmp/lichen1") (lit "{a}{b}") (lit "{a}{b}")
    [{ ModuleReference := lit "a", metadata := 1 }, { ModuleReference := lit "b", metadata := 1 }]
    (lit "c") rfl rfl rfl (by decide) toy_decode_ab (by simp) (by decide) (by decide)

/-- C6. Argument list: for a non-empty request, once the tool is found and the directory
is made, the subprocess is run once, with the arguments "mod", "download", "-json"
followed by `String()` of each reference of `refs` whose `IsLocal()` is false, in the
order of `refs`, duplicates kept; every argument after the first three is the string of
a non-local reference of the request. -/
theorem C6_argument_list [DecidableEq Ref] (M : Model Ref Meta) (w : World) (refs : List Ref)
    (goBin tempDir : GoString) (hne : refs ≠ [])
    (hl : w.lookPath = Except.ok goBin) (ht : w.tempDir = Except.ok tempDir) :
    (Fetch M w refs).trace =
      [Effect.lookPath, Effect.tempDir,
        Effect.run goBin
          ([lit "mod", lit "download", lit "-json"] ++
            (refs.filter (fun ref => !M.IsLocal ref)).map M.String) tempDir,
        Effect.remove tempDir (w.remove tempDir)] ∧
    (∀ a ∈ (buildArgs M refs).drop 3, ∃ ref ∈ refs, M.IsLocal ref = false ∧ M.String ref = a) := by
  constructor
  · rw [Fetch_run M w refs goBin tempDir hne hl ht, buildArgs_eq]
  · intro a ha
    rw [buildArgs_eq] at ha
    simp only [List.cons_append, List.nil_append, List.drop_succ_cons, List.drop_zero,
      List.mem_map, List.mem_filter] at ha
    obtain ⟨ref, ⟨href, hloc⟩, hstr⟩ := ha
    exact ⟨ref, href, by simpa using hloc, hstr⟩

/-- C6 at an example: of the references `a`, `./b`, `c`, `a`, the local `./b` is left
out and the duplicate `a` is kept. -/
theorem C6_argument_list_witness :
    (Fetch toyModel (toyWorld [] none) [lit "a", lit "./b", lit "c", lit "a"]).trace =
      [Effect.lookPath, Effect.tempDir,
        Effect.run (lit "/usr/bin/go")
          [lit "mod", lit "download", lit "-json", lit "a", lit "c", lit "a"] (lit "/tmp/lichen1"),
        Effect.remove (lit "/tmp/lichen1") none] :=
  (C6_argument_list toyModel (toyWorld [] none) [lit "a", lit "./b", lit "c", lit "a"]
    (lit "/usr/bin/go") (lit "/tmp/lichen1") (by simp) rfl rfl).1

/-- C7. Local modules in the result: whenever `Fetch` succeeds on a non-empty request,
the returned sequence is the modules decoded from the trimmed output of the subprocess,
in stream order, followed by one module per local reference of `refs`, in request order,
each made of the reference and zero metadata; every local reference of `refs` is
therefore in the result. On the empty request the result is empty. -/
theorem C7_local_modules [DecidableEq Ref] (M : Model Ref Meta) (w : World) (refs : List Ref)
    (ms : List (Module Ref Meta))
    (h : (Fetch M w refs).result = Return.ret (some ms) none) :
    ((refs = [] ∧ ms = []) ∨
      ∃ goBin tempDir s dm,
        w.lookPath = Except.ok goBin ∧ w.tempDir = Except.ok tempDir ∧
        (w.combinedOutput goBin (buildArgs M refs) tempDir).2 = none ∧
        sanitize (w.combinedOutput goBin (buildArgs M refs) tempDir).1 = some s ∧
        decodeLoop M.dec s [] = Except.ok dm ∧
        ms = dm ++ (refs.filter M.IsLocal).map
          (fun ref => ({ ModuleReference := ref, metadata := M.zero } : Module Ref Meta))) ∧
    (∀ ref ∈ refs, M.IsLocal ref = true →
      ({ ModuleReference := ref, metadata := M.zero } : Module Ref Meta) ∈ ms) := by
  rcases Fetch_success M w refs _ h with ⟨hnil, hm⟩ | ⟨_, goBin, tempDir, s, dm, hl, ht, he, hs, hd, _, hm⟩
  · subst hnil
    injection hm with hm
    exact ⟨Or.inl ⟨rfl, hm⟩, by simp⟩
  · injection hm with hm
    rw [addLocal_eq] at hm
    refine ⟨Or.inr ⟨goBin, tempDir, s, dm, hl, ht, he, hs, hd, hm⟩, ?_⟩
    intro ref href hloc
    rw [hm, List.mem_append]
    right
    exact List.mem_map.mpr ⟨ref, List.mem_filter.mpr ⟨href, hloc⟩, rfl⟩

/-- C7 at an example: the decoded module of `a` comes first, the module of the local
reference `./b`, with zero metadata, after it. -/
theorem C7_local_modules_witness :
    ({ ModuleReference := lit "./b", metadata := 0 } : Module GoString Nat) ∈
      [({ ModuleReference := lit "a", metadata := 1 } : Module GoString Nat),
        { ModuleReference := lit "./b", metadata := 0 }] :=
  (C7_local_modules toyModel (toyWorld (lit "x{a}y") none) [lit "a", lit "./b"] _ toy_fetch_ok).2
    (lit "./b") (by simp) (by decide)

/-- C8. Sanitization span: when the first opening brace of the output is at index `i`
and its last closing brace is at a later index `j`, the sanitized bytes are exactly
the bytes of the output from index `i` through index `j`: what is before the first
opening brace and after the last closing brace is dropped, and nothing between is
changed. -/
theorem C8_sanitization_span (out : List Byte) (i j : Nat)
    (hi : out[i]? = some lbrace) (hfirst : ∀ k, k < i → out[k]? ≠ some lbrace)
    (hj : out[j]? = some rbrace) (hlast : ∀ k, j < k → out[k]? ≠ some rbrace)
    (hij : i < j) :
    sanitize out = some ((out.drop i).take (j + 1 - i)) := by
  have hpre := not_mem_take_of_first out i lbrace hfirst
  have hpost := not_mem_drop_of_last out j rbrace hlast
  have h1 := split_at_index out i lbrace hi
  have hj2 : (out.drop (i + 1))[j - (i + 1)]? = some rbrace := by
    rw [List.getElem?_drop]
    have : i + 1 + (j - (i + 1)) = j := by omega
    rw [this]; exact hj
  have h2 := split_at_index (out.drop (i + 1)) (j - (i + 1)) rbrace hj2
  have h3 : (out.drop (i + 1)).drop (j - (i + 1) + 1) = out.drop (j + 1) := by
    rw [List.drop_drop]
    congr 1
    omega
  rw [h3] at h2
  obtain ⟨hjlt, _⟩ := List.getElem?_eq_some.mp hj2
  have hlen : ((out.drop (i + 1)).take (j - (i + 1))).length = j - (i + 1) := by
    rw [List.length_take]
    omega
  generalize hmid : (out.drop (i + 1)).take (j - (i + 1)) = mid at h2 hlen
  have hdrop : out.drop i = lbrace :: (mid ++ rbrace :: out.drop (j + 1)) := by
    obtain ⟨hilt, hic⟩ := List.getElem?_eq_some.mp hi
    rw [List.drop_eq_getElem_cons hilt, hic, ← h2]
  have hout : out = out.take i ++ lbrace :: (mid ++ rbrace :: out.drop (j + 1)) := by
    rw [← hdrop, List.take_append_drop]
  have hsan := sanitize_span (out.take i) mid (out.drop (j + 1)) hpre hpost
  rw [← hout] at hsan
  rw [hsan, hdrop]
  have hk : j + 1 - i = (mid.length + 1) + 1 := by omega
  rw [hk, List.take_succ_cons]
  have h4 : mid ++ rbrace :: out.drop (j + 1) = (mid ++ [rbrace]) ++ out.drop (j + 1) := by simp
  rw [h4, List.take_left' (by simp)]

/-- C8 at an example: the noise before the first opening brace and after the last closing
brace is dropped, the braces between them stay. -/
theorem C8_sanitization_span_witness :
    sanitize (lit "go: x{a}\x7d{b}y") = some (lit "{a}\x7d{b}") :=
  C8_sanitization_span (lit "go: x{a}\x7d{b}y") 5 11 (by decide) (by decide) (by decide)
    (by
      intro k hk
      by_cases h12 : k = 12
      · subst h12
        decide
      · have hnone : (lit "go: x{a}\x7d{b}y")[k]? = none :=
          List.getElem?_eq_none (by
            have : (lit "go: x{a}\x7d{b}y").length = 13 := by decide
            omega)
        rw [hnone]
        exact fun h => Option.noConfusion h)
    (by decide)

/-- C10 as stated fails: an output without an opening brace whose last closing brace is not
its last byte loses the bytes after that closing brace. -/
theorem C10_counterexample :
    lbrace ∉ lit "abc\x7dxyz" ∧ sanitize (lit "abc\x7dxyz") = some (lit "abc\x7d") ∧
      sanitize (lit "abc\x7dxyz") ≠ some (lit "abc\x7dxyz") := by
  decide

/-- C10, amended. For an output without an opening brace the leading trim is skipped: the
bytes handed to the trailing trim are the captured bytes. The trailing trim still
applies: the bytes handed to the decoder are the captured bytes when the output is
empty or ends in a closing brace, and the captured bytes through the last closing
brace when the output has one. -/
theorem C10_no_opening_brace (out : List Byte) (h : lbrace ∉ out) :
    trimLeading out = some out ∧ sanitize out = trimTrailing out ∧
    ((out = [] ∨ out.getLast? = some rbrace) → sanitize out = some out) ∧
    (∀ body post, out = body ++ rbrace :: post → rbrace ∉ post →
      sanitize out = some (body ++ [rbrace])) := by
  have hlead := trimLeading_of_not_mem out h
  have hsan : sanitize out = trimTrailing out := by simp [sanitize, hlead]
  refine ⟨hlead, hsan, ?_, ?_⟩
  · rintro (hnil | hlast)
    · subst hnil
      decide
    · obtain ⟨ys, hys⟩ := List.getLast?_eq_some_iff.mp hlast
      rw [hsan, hys]
      have := trimTrailing_append_cons ys [] (by simp)
      simpa using this
  · intro body post hout hpost
    rw [hsan, hout]
    exact trimTrailing_append_cons body post hpost

/-- C10 amended, at an example: without an opening brace the output is kept through its
last closing brace. -/
theorem C10_no_opening_brace_witness :
    sanitize (lit "abc\x7dxyz") = some (lit "abc\x7d") :=
  (C10_no_opening_brace (lit "abc\x7dxyz") (by decide)).2.2.2 (lit "abc") (lit "xyz") rfl (by decide)

/-- C9. Noise-tolerant stream decode: for a prefix and a suffix without braces and a list
of `n` objects of the decoder, written one after the other with nothing between them,
sanitizing and decoding the prefix, the objects and the suffix gives the `n` modules of
the objects, in stream order, and no decode error. -/
theorem C9_noise_tolerant_decode (dec : Decoder Ref Meta) (pre suf : List Byte)
    (objs : List (List Byte × Module Ref Meta))
    (hpre : lbrace ∉ pre ∧ rbrace ∉ pre) (hsuf : lbrace ∉ suf ∧ rbrace ∉ suf)
    (hobj : ∀ p ∈ objs, IsObject dec p.1 p.2) (heof : dec.Decode [] = DecodeResult.eof) :
    ∃ s, sanitize (pre ++ (objs.map Prod.fst).flatten ++ suf) = some s ∧
      decodeLoop dec s [] = Except.ok (objs.map Prod.snd) ∧
      (objs.map Prod.snd).length = objs.length := by
  by_cases hne : objs = []
  · subst hne
    refine ⟨[], ?_, ?_, rfl⟩
    · apply sanitize_no_braces
      · simp [hpre.1, hsuf.1]
      · simp [hpre.2, hsuf.2]
    · exact decodeLoop_eof dec [] [] heof
  · refine ⟨(objs.map Prod.fst).flatten, ?_, ?_, by simp⟩
    · apply sanitize_noise pre _ suf hpre.1 hsuf.2
      · cases objs with
        | nil => exact absurd rfl hne
        | cons p ps =>
          obtain ⟨t, ht⟩ := List.head?_eq_some_iff.mp (hobj p (List.mem_cons_self p ps)).1
          simp [ht]
      · exact flatten_getLast objs hne (fun p hp => (hobj p hp).2.1)
    · have h := decodeLoop_objects dec objs hobj [] []
      simp only [List.append_nil, List.nil_append] at h
      rw [h]
      exact decodeLoop_eof dec [] _ heof

/-- C9 at the example of the specification: two objects between a garbage prefix and a
garbage suffix decode to exactly two modules. -/
theorem C9_noise_tolerant_decode_witness :
    ∃ s, sanitize (lit "garbage-prefix\x7b\"A\":1\x7d\x7b\"B\":2\x7dgarbage-suffix") = some s ∧
      decodeLoop toyDecoder s [] =
        Except.ok [{ ModuleReference := lit "\"A\":1", metadata := 1 },
          { ModuleReference := lit "\"B\":2", metadata := 1 }] ∧
      [({ ModuleReference := lit "\"A\":1", metadata := 1 } : Module GoString Nat),
        { ModuleReference := lit "\"B\":2", metadata := 1 }].length = 2 :=
  C9_noise_tolerant_decode toyDecoder (lit "garbage-prefix") (lit "garbage-suffix")
    [(lit "\x7b\"A\":1\x7d", { ModuleReference := lit "\"A\":1", metadata := 1 }),
      (lit "\x7b\"B\":2\x7d", { ModuleReference := lit "\"B\":2", metadata := 1 })]
    (by decide) (by decide)
    (by
      intro p hp
      simp only [List.mem_cons, List.mem_singleton, List.not_mem_nil, or_false] at hp
      rcases hp with rfl | rfl
      · exact ⟨by decide, by decide, fun rest => toy_decode_one (lit "\"A\":1") (by decide) rest⟩
      · exact ⟨by decide, by decide, fun rest => toy_decode_one (lit "\"B\":2") (by decide) rest⟩)
    rfl

/-! ## The shape of the trimmed output -/

theorem last_split {c : Byte} {a : List Byte} (h : c ∈ a) :
    ∃ body post, a = body ++ c :: post ∧ c ∉ post := by
  obtain ⟨xs, ys, hxy, hx⟩ := List.eq_append_cons_of_mem (List.mem_reverse.mpr h)
  refine ⟨ys.reverse, xs.reverse, ?_, by simpa using hx⟩
  have h2 := congrArg List.reverse hxy
  simpa using h2

theorem trimLeading_shape (o a : List Byte) (h : trimLeading o = some a) :
    a <:+ o ∧ (lbrace ∉ a ∨ a.head? = some lbrace) := by
  by_cases hmem : lbrace ∈ o
  · obtain ⟨pre, rest, hsplit, hpre⟩ := List.eq_append_cons_of_mem hmem
    rw [hsplit, trimLeading_append_cons pre rest hpre] at h
    injection h with h
    subst h
    rw [hsplit]
    exact ⟨List.suffix_append _ _, Or.inr rfl⟩
  · rw [trimLeading_of_not_mem o hmem] at h
    injection h with h
    subst h
    exact ⟨List.suffix_refl _, Or.inl hmem⟩

theorem trimTrailing_shape (a s : List Byte) (h : trimTrailing a = some s) :
    s <+: a ∧ (s = [] ∨ s.getLast? = some rbrace) := by
  by_cases hmem : rbrace ∈ a
  · obtain ⟨body, post, hsplit, hpost⟩ := last_split hmem
    rw [hsplit, trimTrailing_append_cons body post hpost] at h
    injection h with h
    subst h
    rw [hsplit]
    refine ⟨⟨post, by simp⟩, Or.inr (by simp)⟩
  · rw [trimTrailing_of_not_mem a hmem] at h
    injection h with h
    subst h
    exact ⟨List.nil_prefix, Or.inl rfl⟩

theorem trimLeading_fixed (s : List Byte) (h : lbrace ∉ s ∨ s.head? = some lbrace) :
    trimLeading s = some s := by
  rcases h with h | h
  · exact trimLeading_of_not_mem s h
  · obtain ⟨t, ht⟩ := List.head?_eq_some_iff.mp h
    subst ht
    exact trimLeading_append_cons [] t (by simp)

theorem trimTrailing_fixed (s : List Byte) (h : s = [] ∨ s.getLast? = some rbrace) :
    trimTrailing s = some s := by
  rcases h with h | h
  · subst h
    decide
  · obtain ⟨b, hb⟩ := List.getLast?_eq_some_iff.mp h
    subst hb
    have := trimTrailing_append_cons b [] (by simp)
    simpa using this

theorem sanitize_parts (out : List Byte) :
    ∃ a s, trimLeading out = some a ∧ trimTrailing a = some s ∧ sanitize out = some s := by
  obtain ⟨a, ha⟩ := trimLeading_total out
  obtain ⟨s, hs⟩ := trimTrailing_total a
  exact ⟨a, s, ha, hs, by simp [sanitize, ha, hs]⟩

/-- C12. Empty request: for an empty `refs`, `Fetch` returns an empty module sequence and
a nil error and makes no call at all (no tool lookup, no temporary directory, no
subprocess, no removal), whatever these calls would have returned. -/
theorem C12_empty_request [DecidableEq Ref] (M : Model Ref Meta) (w : World) :
    (Fetch M w ([] : List Ref)).result = Return.ret (some []) none ∧
      (Fetch M w ([] : List Ref)).trace = [] := by
  rw [Fetch_nil]
  exact ⟨rfl, rfl⟩

/-- C17. Sanitization is total: for every byte string, the leading trim and then the
trailing trim both return (no slice expression is out of range, so the trim does not
panic), the leading trim gives a suffix of the output, the trailing trim a prefix of
that, and the sanitized bytes are a contiguous part of the captured output. -/
theorem C17_sanitization_total (out : List Byte) :
    ∃ a s, trimLeading out = some a ∧ trimTrailing a = some s ∧ sanitize out = some s ∧
      a <:+ out ∧ s <+: a ∧ s <:+: out := by
  obtain ⟨a, s, ha, hs, hsan⟩ := sanitize_parts out
  have h1 := (trimLeading_shape out a ha).1
  have h2 := (trimTrailing_shape a s hs).1
  exact ⟨a, s, ha, hs, hsan, h1, h2, h2.isInfix.trans h1.isInfix⟩

/-- C19. Sanitization is idempotent: for every byte string, the trim returns, and the
trim of the trimmed bytes returns the same bytes. -/
theorem C19_sanitization_idempotent (o : List Byte) :
    ∃ s, sanitize o = some s ∧ sanitize s = some s := by
  obtain ⟨a, s, ha, hs, hsan⟩ := sanitize_parts o
  obtain ⟨_, hlead⟩ := trimLeading_shape o a ha
  obtain ⟨hpre, htrail⟩ := trimTrailing_shape a s hs
  refine ⟨s, hsan, ?_⟩
  have hl : trimLeading s = some s := by
    by_cases hnil : s = []
    · subst hnil
      decide
    · apply trimLeading_fixed
      rcases hlead with hno | hhead
      · exact Or.inl (fun hmem => hno (hpre.subset hmem))
      · right
        obtain ⟨t, ht⟩ := hpre
        cases s with
        | nil => exact absurd rfl hnil
        | cons b bs =>
          rw [← ht] at hhead
          simpa using hhead
  have ht : trimTrailing s = some s := trimTrailing_fixed s htrail
  simp [sanitize, hl, ht]

/-! ## The failure paths -/

theorem infix_mid (a b c : List Byte) : b <:+: a ++ b ++ c := List.infix_append a b c

theorem Fetch_lookPath_error [DecidableEq Ref] (M : Model Ref Meta) (w : World) (refs : List Ref)
    (e : GoError) (hne : refs ≠ []) (hl : w.lookPath = Except.error e) :
    Fetch M w refs = { result := Return.ret none (some e), trace := [Effect.lookPath] } := by
  have h0 : refs.length ≠ 0 := by simpa using hne
  simp only [Fetch, if_neg h0, hl]

theorem Fetch_tempDir_error [DecidableEq Ref] (M : Model Ref Meta) (w : World) (refs : List Ref)
    (goBin : GoString) (e : GoError) (hne : refs ≠ [])
    (hl : w.lookPath = Except.ok goBin) (ht : w.tempDir = Except.error e) :
    Fetch M w refs =
      { result := Return.ret none
          (some (GoError.wrap (lit "failed to create temp directory: ") e [])),
        trace := [Effect.lookPath, Effect.tempDir] } := by
  have h0 : refs.length ≠ 0 := by simpa using hne
  simp only [Fetch, if_neg h0, hl, ht]

theorem toy_decode_fail :
    decodeLoop toyDecoder (lit "{a}x{b}") [] =
      Except.error (GoError.text (lit "invalid character")) := by
  rw [decodeLoop_value _ _ _ { ModuleReference := lit "a", metadata := 1 } (lit "x{b}") (by rfl),
    decodeLoop_error _ _ _ (GoError.text (lit "invalid character")) (by rfl)]

/-- C13. Subprocess failure: for a non-empty request, when the subprocess fails to start
or exits non-zero with captured output `o` and error `e`, `Fetch` returns nil modules
and the error `fmt.Errorf("failed to fetch: %w (output: %s)", e, o)`, whose message is
"failed to fetch: ", the message of `e`, " (output: ", all of `o`, ")"; the result is
the same whatever the decoder would make of `o`. -/
theorem C13_subprocess_failure [DecidableEq Ref] (M : Model Ref Meta) (w : World)
    (refs : List Ref) (goBin tempDir : GoString) (o : List Byte) (e : GoError)
    (format : List GoString → GoString)
    (hne : refs ≠ []) (hl : w.lookPath = Except.ok goBin) (ht : w.tempDir = Except.ok tempDir)
    (hrun : w.combinedOutput goBin (buildArgs M refs) tempDir = (o, some e)) :
    (Fetch M w refs).result = Return.ret none
        (some (GoError.wrap (lit "failed to fetch: ") e (lit " (output: " ++ o ++ lit ")"))) ∧
    (GoError.wrap (lit "failed to fetch: ") e (lit " (output: " ++ o ++ lit ")")).Error format =
      lit "failed to fetch: " ++ e.Error format ++ (lit " (output: " ++ o ++ lit ")") ∧
    o <:+: (GoError.wrap (lit "failed to fetch: ") e
      (lit " (output: " ++ o ++ lit ")")).Error format ∧
    (∀ dec2 : Decoder Ref Meta,
      (Fetch { M with dec := dec2 } w refs).result = (Fetch M w refs).result) := by
  have hres : (Fetch M w refs).result = Return.ret none
      (some (GoError.wrap (lit "failed to fetch: ") e (lit " (output: " ++ o ++ lit ")"))) := by
    rw [Fetch_run M w refs goBin tempDir hne hl ht, hrun]
    rfl
  refine ⟨hres, rfl, ?_, ?_⟩
  · show o <:+: lit "failed to fetch: " ++ e.Error format ++ (lit " (output: " ++ o ++ lit ")")
    have h := infix_mid (lit "failed to fetch: " ++ e.Error format ++ lit " (output: ") o (lit ")")
    simpa [List.append_assoc] using h
  · intro dec2
    have hrun2 : w.combinedOutput goBin (buildArgs { M with dec := dec2 } refs) tempDir =
        (o, some e) := hrun
    rw [hres, Fetch_run { M with dec := dec2 } w refs goBin tempDir hne hl ht, hrun2]
    rfl

/-- C13 at an example: the tool exits with status 1 after printing a line, and the message
of the returned error has the line in it. -/
theorem C13_subprocess_failure_witness :
    (Fetch toyModel (toyWorld (lit "go: no network") (some (GoError.text (lit "exit status 1"))))
        [lit "a"]).result =
      Return.ret none (some (GoError.wrap (lit "failed to fetch: ")
        (GoError.text (lit "exit status 1")) (lit " (output: go: no network)"))) ∧
    (GoError.wrap (lit "failed to fetch: ") (GoError.text (lit "exit status 1"))
        (lit " (output: go: no network)")).Error toyFormat =
      lit "failed to fetch: exit status 1 (output: go: no network)" :=
  ⟨(C13_subprocess_failure toyModel
      (toyWorld (lit "go: no network") (some (GoError.text (lit "exit status 1"))))
      [lit "a"] (lit "/usr/bin/go") (lit "/tmp/lichen1") (lit "go: no network")
      (GoError.text (lit "exit status 1")) toyFormat (by simp) rfl rfl rfl).1,
    (C13_subprocess_failure toyModel
      (toyWorld (lit "go: no network") (some (GoError.text (lit "exit status 1"))))
      [lit "a"] (lit "/usr/bin/go") (lit "/tmp/lichen1") (lit "go: no network")
      (GoError.text (lit "exit status 1")) toyFormat (by simp) rfl rfl rfl).2.1⟩

/-- C14. Decode failure: when the run exits zero and the decode loop on the sanitized bytes
`s` ends with an error `e` that is not the end of the input, after any number of decoded
objects, `Fetch` returns nil modules and the error
`fmt.Errorf("failed to decode JSON: %w. Input: %s", e, s)`: its message has the message
of the parse error in it and ends with the sanitized bytes, not with the captured
output. -/
theorem C14_decode_failure [DecidableEq Ref] (M : Model Ref Meta) (w : World)
    (refs : List Ref) (goBin tempDir : GoString) (out s : List Byte) (e : GoError)
    (format : List GoString → GoString)
    (hne : refs ≠ []) (hl : w.lookPath = Except.ok goBin) (ht : w.tempDir = Except.ok tempDir)
    (hrun : w.combinedOutput goBin (buildArgs M refs) tempDir = (out, none))
    (hs : sanitize out = some s) (hd : decodeLoop M.dec s [] = Except.error e) :
    (Fetch M w refs).result = Return.ret none
        (some (GoError.wrap (lit "failed to decode JSON: ") e (lit ". Input: " ++ s))) ∧
    (GoError.wrap (lit "failed to decode JSON: ") e (lit ". Input: " ++ s)).Error format =
      lit "failed to decode JSON: " ++ e.Error format ++ (lit ". Input: " ++ s) ∧
    e.Error format <:+:
      (GoError.wrap (lit "failed to decode JSON: ") e (lit ". Input: " ++ s)).Error format ∧
    s <:+ (GoError.wrap (lit "failed to decode JSON: ") e (lit ". Input: " ++ s)).Error format := by
  refine ⟨?_, rfl, ?_, ?_⟩
  · rw [Fetch_run M w refs goBin tempDir hne hl ht, hrun]
    simp only [fetchOutput, hs, hd]
  · exact infix_mid (lit "failed to decode JSON: ") (e.Error format) (lit ". Input: " ++ s)
  · show s <:+ lit "failed to decode JSON: " ++ e.Error format ++ (lit ". Input: " ++ s)
    exact ⟨lit "failed to decode JSON: " ++ e.Error format ++ lit ". Input: ", by simp⟩

/-- C14 at an example: the output has noise around an object and a stream that goes wrong
after it; one object is decoded before the failure, and the message ends with the
trimmed bytes. -/
theorem C14_decode_failure_witness :
    (Fetch toyModel (toyWorld (lit "go: {a}x{b} done") none) [lit "a"]).result =
      Return.ret none (some (GoError.wrap (lit "failed to decode JSON: ")
        (GoError.text (lit "invalid character")) (lit ". Input: {a}x{b}"))) ∧
    (GoError.wrap (lit "failed to decode JSON: ") (GoError.text (lit "invalid character"))
        (lit ". Input: {a}x{b}")).Error toyFormat =
      lit "failed to decode JSON: invalid character. Input: {a}x{b}" :=
  ⟨(C14_decode_failure toyModel (toyWorld (lit "go: {a}x{b} done") none) [lit "a"]
      (lit "/usr/bin/go") (lit "/tmp/lichen1") (lit "go: {a}x{b} done") (lit "{a}x{b}")
      (GoError.text (lit "invalid character")) toyFormat (by simp) rfl rfl rfl (by decide)
      toy_decode_fail).1,
    (C14_decode_failure toyModel (toyWorld (lit "go: {a}x{b} done") none) [lit "a"]
      (lit "/usr/bin/go") (lit "/tmp/lichen1") (lit "go: {a}x{b} done") (lit "{a}x{b}")
      (GoError.text (lit "invalid character")) toyFormat (by simp) rfl rfl rfl (by decide)
      toy_decode_fail).2.1⟩

theorem not_mem_addLocal_nil (M : Model Ref Meta) (refs : List Ref) (ref : Ref)
    (hloc : M.IsLocal ref = false) :
    ¬ ∃ m ∈ addLocal M refs [], m.ModuleReference = ref := by
  rintro ⟨m, hm, hmr⟩
  rw [addLocal_eq, List.nil_append, List.mem_map] at hm
  obtain ⟨r, hr, hrm⟩ := hm
  rw [List.mem_filter] at hr
  subst hrm
  simp only at hmr
  subst hmr
  rw [hloc] at hr
  exact Bool.false_ne_true hr.2

/-- C11 as stated fails on an empty output. With a zero exit and an empty output the
decoder is at the end of its input at once and decodes zero modules: for the remote
reference `a` the call fails in the verification, with "failed to fetch all modules"
and not with "failed to decode JSON", and for the local reference `./b` it succeeds. -/
theorem C11_counterexample :
    (Fetch toyModel (toyWorld [] none) [lit "a"]).result =
      Return.ret none (some (GoError.wrap (lit "failed to fetch all modules: ")
        (GoError.multi [GoError.text (lit "module a could not be resolved")]) [])) ∧
    lit "failed to fetch all modules: " ≠ lit "failed to decode JSON: " ∧
    (Fetch toyModel (toyWorld [] none) [lit "./b"]).result =
      Return.ret (some [{ ModuleReference := lit "./b", metadata := 0 }]) none := by
  refine ⟨?_, by decide, ?_⟩
  · rw [Fetch_run toyModel _ _ (lit "/usr/bin/go") (lit "/tmp/lichen1") (by simp) rfl rfl]
    show fetchOutput toyModel _ [] none = _
    rw [fetchOutput_decoded toyModel _ _ [] [] (by decide) (decodeLoop_eof _ _ _ (by rfl))]
    rfl
  · rw [Fetch_run toyModel _ _ (lit "/usr/bin/go") (lit "/tmp/lichen1") (by simp) rfl rfl]
    show fetchOutput toyModel _ [] none = _
    rw [fetchOutput_decoded toyModel _ _ [] [] (by decide) (decodeLoop_eof _ _ _ (by rfl))]
    rfl

/-- C11, amended. For a non-empty request and a zero exit: when the captured output is
empty, the decoder (which reports the end of the input on an empty input) decodes zero
modules and there is no decode error: `Fetch` returns the local modules when every
reference is local and fails with "failed to fetch all modules" when some reference is
not local. When the output has no opening brace but has a closing brace, the decoder
is handed the output through its last closing brace, and when the decoder rejects
these bytes `Fetch` fails with "failed to decode JSON". -/
theorem C11_empty_or_garbage_output [DecidableEq Ref] (M : Model Ref Meta) (w : World)
    (refs : List Ref) (goBin tempDir : GoString) (out : List Byte)
    (hne : refs ≠ []) (hl : w.lookPath = Except.ok goBin) (ht : w.tempDir = Except.ok tempDir)
    (hrun : w.combinedOutput goBin (buildArgs M refs) tempDir = (out, none))
    (heof : M.dec.Decode [] = DecodeResult.eof) :
    (out = [] → (∀ ref ∈ refs, M.IsLocal ref = true) →
      (Fetch M w refs).result = Return.ret (some (refs.map
        (fun ref => ({ ModuleReference := ref, metadata := M.zero } : Module Ref Meta)))) none) ∧
    (out = [] → (∃ ref ∈ refs, M.IsLocal ref = false) →
      ∃ err, (Fetch M w refs).result = Return.ret none
        (some (GoError.wrap (lit "failed to fetch all modules: ") err []))) ∧
    (∀ body post e, lbrace ∉ out → out = body ++ rbrace :: post → rbrace ∉ post →
      decodeLoop M.dec (body ++ [rbrace]) [] = Except.error e →
      (Fetch M w refs).result = Return.ret none
        (some (GoError.wrap (lit "failed to decode JSON: ") e
          (lit ". Input: " ++ (body ++ [rbrace]))))) := by
  rw [Fetch_run M w refs goBin tempDir hne hl ht, hrun]
  simp only
  have hdec : decodeLoop M.dec [] [] = Except.ok [] := decodeLoop_eof M.dec [] [] heof
  have hsan : sanitize [] = some [] := by decide
  refine ⟨?_, ?_, ?_⟩
  · intro hout hall
    subst hout
    rw [fetchOutput_decoded M refs [] [] [] hsan hdec]
    have hfilter : refs.filter M.IsLocal = refs := List.filter_eq_self.mpr hall
    have hadd : addLocal M refs [] = refs.map
        (fun ref => ({ ModuleReference := ref, metadata := M.zero } : Module Ref Meta)) := by
      rw [addLocal_eq, hfilter, List.nil_append]
    have hver : verifyFetched M (addLocal M refs []) refs = none := by
      rw [verifyFetched_none_iff, hadd]
      intro ref href
      exact ⟨_, List.mem_map_of_mem _ href, rfl⟩
    rw [hver, hadd]
  · rintro hout ⟨ref, href, hloc⟩
    subst hout
    rw [fetchOutput_decoded M refs [] [] [] hsan hdec]
    cases hver : verifyFetched M (addLocal M refs []) refs with
    | some err => exact ⟨err, rfl⟩
    | none =>
      exact absurd ((verifyFetched_none_iff M _ refs).mp hver ref href)
        (not_mem_addLocal_nil M refs ref hloc)
  · intro body post e hno hsplit hpost hd
    have hs : sanitize out = some (body ++ [rbrace]) := by
      unfold sanitize
      rw [trimLeading_of_not_mem out hno, hsplit]
      exact trimTrailing_append_cons body post hpost
    simp only [fetchOutput, hs, hd]

/-- C11 amended, at an example: the remote reference `a` and an empty output give the
error of the verification. -/
theorem C11_empty_or_garbage_output_witness :
    ∃ err, (Fetch toyModel (toyWorld [] none) [lit "a"]).result = Return.ret none
      (some (GoError.wrap (lit "failed to fetch all modules: ") err [])) :=
  (C11_empty_or_garbage_output toyModel (toyWorld [] none) [lit "a"] (lit "/usr/bin/go")
    (lit "/tmp/lichen1") [] (by simp) rfl rfl rfl rfl).2.1 rfl ⟨lit "a", by simp, by decide⟩

/-- C15, the path that does not wrap: when the tool is not found, `Fetch` returns the
error of `exec.LookPath` itself, with no description of the step around it, and makes
no other call. The other four failure paths (directory creation, subprocess, decoding,
verification) wrap the error with `fmt.Errorf` and `%w`. -/
theorem C15_lookPath_error_unwrapped [DecidableEq Ref] (M : Model Ref Meta) (w : World)
    (refs : List Ref) (e : GoError) (hne : refs ≠ []) (hl : w.lookPath = Except.error e) :
    (Fetch M w refs).result = Return.ret none (some e) ∧
      (Fetch M w refs).trace = [Effect.lookPath] := by
  rw [Fetch_lookPath_error M w refs e hne hl]
  exact ⟨rfl, rfl⟩

/-- C15 at the failing input: the request is `a` and the tool is not on the search path;
the returned error is the error of the lookup. -/
theorem C15_lookPath_error_unwrapped_witness :
    (Fetch toyModel
        { lookPath := Except.error (GoError.text (lit "executable file not found"))
          tempDir := Except.ok (lit "/tmp/lichen1")
          combinedOutput := fun _ _ _ => ([], none)
          remove := fun _ => none }
        [lit "a"]).result =
      Return.ret none (some (GoError.text (lit "executable file not found"))) :=
  (C15_lookPath_error_unwrapped toyModel
    { lookPath := Except.error (GoError.text (lit "executable file not found"))
      tempDir := Except.ok (lit "/tmp/lichen1")
      combinedOutput := fun _ _ _ => ([], none)
      remove := fun _ => none }
    [lit "a"] (GoError.text (lit "executable file not found")) (by simp) rfl).1

theorem multiOf_eq_some {es : List GoError} {e : GoError} (h : multiOf es = some e) :
    e = GoError.multi es ∧ es ≠ [] := by
  cases es with
  | nil => simp [multiOf] at h
  | cons a t =>
    simp only [multiOf, Option.some.injEq] at h
    exact ⟨h.symm, by simp⟩

theorem toy_fetch_remove_fails :
    (Fetch toyModel
        { lookPath := Except.ok (lit "/usr/bin/go")
          tempDir := Except.ok (lit "/tmp/lichen1")
          combinedOutput := fun _ _ _ => ([], none)
          remove := fun _ => some (GoError.text (lit "directory not empty")) }
        [lit "./b"]).result =
      Return.ret (some [{ ModuleReference := lit "./b", metadata := 0 }]) none := by
  rw [Fetch_run toyModel _ _ (lit "/usr/bin/go") (lit "/tmp/lichen1") (by simp) rfl rfl]
  show fetchOutput toyModel _ [] none = _
  rw [fetchOutput_decoded toyModel _ _ [] [] (by decide) (decodeLoop_eof _ _ _ (by rfl))]
  rfl

/-- C16 as stated fails when the removal fails: `os.Remove` returns an error (here
"directory not empty"), `Fetch` drops it and returns its modules, and the temporary
directory is still there afterward. -/
theorem C16_counterexample :
    (Fetch toyModel
        { lookPath := Except.ok (lit "/usr/bin/go")
          tempDir := Except.ok (lit "/tmp/lichen1")
          combinedOutput := fun _ _ _ => ([], none)
          remove := fun _ => some (GoError.text (lit "directory not empty")) }
        [lit "./b"]).result =
      Return.ret (some [{ ModuleReference := lit "./b", metadata := 0 }]) none ∧
    dirsLeft
        { lookPath := Except.ok (lit "/usr/bin/go")
          tempDir := Except.ok (lit "/tmp/lichen1")
          combinedOutput := fun _ _ _ => ([], none)
          remove := fun _ => some (GoError.text (lit "directory not empty")) }
        (Fetch toyModel
          { lookPath := Except.ok (lit "/usr/bin/go")
            tempDir := Except.ok (lit "/tmp/lichen1")
            combinedOutput := fun _ _ _ => ([], none)
            remove := fun _ => some (GoError.text (lit "directory not empty")) }
          [lit "./b"]).trace =
      [lit "/tmp/lichen1"] :=
  ⟨toy_fetch_remove_fails, rfl⟩

/-- C16, amended. Scoped temp directory: on every way out of `Fetch` after the temporary
directory was made (success, subprocess failure, decode failure, verification failure),
`os.Remove` is called on the directory, once, as the last call; when the removal
succeeds no directory remains afterward, and when it fails the directory remains and
the failure is dropped: whatever `os.Remove` returns, `Fetch` returns the same modules
and error. On the ways out before the directory is made (empty request, tool not found,
creation failure) no removal is performed. -/
theorem C16_scoped_temp_dir [DecidableEq Ref] (M : Model Ref Meta) (w : World)
    (refs : List Ref) :
    (∀ goBin tempDir, refs ≠ [] → w.lookPath = Except.ok goBin →
      w.tempDir = Except.ok tempDir →
      (Fetch M w refs).trace =
        [Effect.lookPath, Effect.tempDir, Effect.run goBin (buildArgs M refs) tempDir,
          Effect.remove tempDir (w.remove tempDir)] ∧
      (w.remove tempDir = none → dirsLeft w (Fetch M w refs).trace = []) ∧
      (∀ e, w.remove tempDir = some e → dirsLeft w (Fetch M w refs).trace = [tempDir])) ∧
    (∀ rm : GoString → Option GoError,
      (Fetch M { w with remove := rm } refs).result = (Fetch M w refs).result) ∧
    ((refs = [] ∨ (∃ e, w.lookPath = Except.error e) ∨ (∃ e, w.tempDir = Except.error e)) →
      ∀ dir res, Effect.remove dir res ∉ (Fetch M w refs).trace) := by
  refine ⟨?_, ?_, ?_⟩
  · intro goBin tempDir hne hl ht
    rw [Fetch_run M w refs goBin tempDir hne hl ht]
    refine ⟨rfl, ?_, ?_⟩
    · intro hr
      simp [dirsLeft, ht, hr]
    · intro e hr
      simp [dirsLeft, ht, hr]
  · intro rm
    by_cases hne : refs = []
    · subst hne
      rw [Fetch_nil, Fetch_nil]
    · cases hl : w.lookPath with
      | error e =>
        rw [Fetch_lookPath_error M w refs e hne hl,
          Fetch_lookPath_error M _ refs e hne rfl]
      | ok goBin =>
        cases ht : w.tempDir with
        | error e =>
          rw [Fetch_tempDir_error M w refs goBin e hne hl ht,
            Fetch_tempDir_error M _ refs goBin e hne rfl rfl]
        | ok tempDir =>
          rw [Fetch_run M w refs goBin tempDir hne hl ht,
            Fetch_run M _ refs goBin tempDir hne rfl rfl]
  · intro hbefore dir res
    by_cases hne : refs = []
    · subst hne
      rw [Fetch_nil]
      simp
    · cases hl : w.lookPath with
      | error e =>
        rw [Fetch_lookPath_error M w refs e hne hl]
        simp
      | ok goBin =>
        cases ht : w.tempDir with
        | error e =>
          rw [Fetch_tempDir_error M w refs goBin e hne hl ht]
          simp
        | ok tempDir =>
          exfalso
          rcases hbefore with h | ⟨e, h⟩ | ⟨e, h⟩
          · exact hne h
          · rw [hl] at h; cases h
          · rw [ht] at h; cases h

/-- C16 amended, at an example: the removal succeeds and no directory remains. -/
theorem C16_scoped_temp_dir_witness :
    dirsLeft (toyWorld (lit "{a}") none)
      (Fetch toyModel (toyWorld (lit "{a}") none) [lit "a", lit "c"]).trace = [] :=
  ((C16_scoped_temp_dir toyModel (toyWorld (lit "{a}") none) [lit "a", lit "c"]).1
    (lit "/usr/bin/go") (lit "/tmp/lichen1") (by simp) rfl rfl).2.1 rfl

/-- C18. Local references are never reported unresolved: after a zero exit with an output
that decodes to `dm`, an error returned by `Fetch` is the wrapped multi-error of the
verification, and every reference it has an entry for is a reference of the request
that is not local; and when every reference of the request is local the verification
does not fail: `Fetch` returns `dm` followed by the local modules. -/
theorem C18_local_never_unresolved [DecidableEq Ref] (M : Model Ref Meta) (w : World)
    (refs : List Ref) (goBin tempDir : GoString) (out s : List Byte)
    (dm : List (Module Ref Meta))
    (hne : refs ≠ []) (hl : w.lookPath = Except.ok goBin) (ht : w.tempDir = Except.ok tempDir)
    (hrun : w.combinedOutput goBin (buildArgs M refs) tempDir = (out, none))
    (hs : sanitize out = some s) (hd : decodeLoop M.dec s [] = Except.ok dm) :
    (∀ err, (Fetch M w refs).result = Return.ret none (some err) →
      ∃ xs : List Ref, xs ≠ [] ∧
        err = GoError.wrap (lit "failed to fetch all modules: ")
          (GoError.multi (xs.map (fun X =>
            GoError.text (lit "module " ++ M.String X ++ lit " could not be resolved")))) [] ∧
        ∀ X ∈ xs, X ∈ refs ∧ M.IsLocal X = false) ∧
    ((∀ ref ∈ refs, M.IsLocal ref = true) →
      (Fetch M w refs).result = Return.ret (some (dm ++ refs.map
        (fun ref => ({ ModuleReference := ref, metadata := M.zero } : Module Ref Meta)))) none) := by
  rw [Fetch_run M w refs goBin tempDir hne hl ht, hrun]
  simp only
  rw [fetchOutput_decoded M refs out s dm hs hd]
  constructor
  · intro err herr
    cases hver : verifyFetched M (addLocal M refs dm) refs with
    | none => rw [hver] at herr; cases herr
    | some e =>
      rw [hver] at herr
      simp only at herr
      injection herr with _ herr
      injection herr with herr
      rw [verifyFetched_eq] at hver
      obtain ⟨he, hnil⟩ := multiOf_eq_some hver
      refine ⟨missing (addLocal M refs dm) refs, ?_, ?_, ?_⟩
      · intro h
        rw [h] at hnil
        exact hnil rfl
      · rw [← herr, he]
        rfl
      · intro X hX
        obtain ⟨hXr, hXno⟩ := (mem_missing _ _ X).mp hX
        refine ⟨hXr, ?_⟩
        cases hloc : M.IsLocal X with
        | false => rfl
        | true =>
          exfalso
          apply hXno
          refine ⟨{ ModuleReference := X, metadata := M.zero }, ?_, rfl⟩
          rw [addLocal_eq, List.mem_append]
          right
          exact List.mem_map.mpr ⟨X, List.mem_filter.mpr ⟨hXr, hloc⟩, rfl⟩
  · intro hall
    have hfilter : refs.filter M.IsLocal = refs := List.filter_eq_self.mpr hall
    have hadd : addLocal M refs dm = dm ++ refs.map
        (fun ref => ({ ModuleReference := ref, metadata := M.zero } : Module Ref Meta)) := by
      rw [addLocal_eq, hfilter]
    have hver : verifyFetched M (addLocal M refs dm) refs = none := by
      rw [verifyFetched_none_iff, hadd]
      intro ref href
      exact ⟨_, List.mem_append_right _ (List.mem_map_of_mem _ href), rfl⟩
    rw [hver, hadd]

/-- C18 at an example: both references of the request are local, the output has an object
nobody asked for, and `Fetch` returns its module followed by the two local modules. -/
theorem C18_local_never_unresolved_witness :
    (Fetch toyModel (toyWorld (lit "{a}") none) [lit "./b", lit "./c"]).result =
      Return.ret (some [{ ModuleReference := lit "a", metadata := 1 },
        { ModuleReference := lit "./b", metadata := 0 },
        { ModuleReference := lit "./c", metadata := 0 }]) none :=
  (C18_local_never_unresolved toyModel (toyWorld (lit "{a}") none) [lit "./b", lit "./c"]
    (lit "/usr/bin/go") (lit "/tmp/lichen1") (lit "{a}") (lit "{a}")
    [{ ModuleReference := lit "a", metadata := 1 }]
    (by simp) rfl rfl rfl (by decide) toy_decode_a).2 (by decide)

end Lichen
